import Mathlib

/-!
Verification of the PNG-tile → PDF layout pipeline (`png-layout-pdf-cli.ts`).

The TypeScript source is shallowly embedded: `Buffer`s become `List Nat`
(byte values), JavaScript strings serialized with the `'binary'` (latin-1)
encoding become the list of their character code points, and the stateful
`PdfBuilder` class becomes explicit state passing over its `objects` array.
zlib's `inflateSync`/`deflateSync` are external collaborators and are taken
as function parameters wherever the embedded code calls them.
-/

namespace MahjongPdf

/-- Bytes of a JS string under the `'binary'` (latin-1) encoding: one byte
per character, the character's code point (all strings involved use code
points ≤ 255). -/
def strBytes (s : String) : List Nat := s.data.map Char.toNat

theorem strBytes_append (a b : String) : strBytes (a ++ b) = strBytes a ++ strBytes b := by
  simp [strBytes, String.data_append]

/-! ## Document Encoder (`PdfBuilder`, part_005 lines 59–117) -/

/-- One indirect object body, as raw bytes (the TS class stores `Buffer`s). -/
abbrev PdfBody := List Nat

/-- `PdfBuilder.addObject`: push the body onto `objects`, return the new
1-based identifier (`this.objects.length` after the push). -/
def addObject (objects : List PdfBody) (body : PdfBody) : List PdfBody × Nat :=
  (objects ++ [body], objects.length + 1)

/-- `PdfBuilder.setObject`: overwrite `objects[objectId - 1]` in place. -/
def setObject (objects : List PdfBody) (objectId : Nat) (body : PdfBody) : List PdfBody :=
  objects.set (objectId - 1) body

/-- `PdfBuilder.addStreamObject`: dictionary, `stream` marker, payload,
`endstream` marker. -/
def streamObjectBody (dict : String) (data : List Nat) : PdfBody :=
  strBytes (dict ++ "\nstream\n") ++ data ++ strBytes "\nendstream"

/-- `PdfBuilder.addPlaceholderObject` registers the body `<< >>`. -/
def placeholderBody : PdfBody := strBytes "<< >>"

/-- The fixed PDF header emitted by `build` (`%PDF-1.4\n%\xff\xff\xff\xff\n`). -/
def pdfHeader : List Nat := strBytes "%PDF-1.4\n%\xff\xff\xff\xff\n"

/-- The serialized block of one object: `"{id} 0 obj\n{body}\nendobj\n"`. -/
def objBlock (objectId : Nat) (body : PdfBody) : List Nat :=
  strBytes (toString objectId ++ " 0 obj\n") ++ body ++ strBytes "\nendobj\n"

/-- The per-object byte blocks of `build`'s forEach loop, identifiers
starting at `k` (the loop emits id `index + 1`). -/
def objBlocksFrom (k : Nat) : List PdfBody → List (List Nat)
  | [] => []
  | b :: rest => objBlock k b :: objBlocksFrom (k + 1) rest

/-- The byte offsets recorded by `build`'s forEach loop (`offsets[1..]`), for
objects serialized starting at stream position `pos` with ids from `k`. -/
def offsetsFrom (pos k : Nat) : List PdfBody → List Nat
  | [] => []
  | b :: rest => pos :: offsetsFrom (pos + (objBlock k b).length) (k + 1) rest

/-- `padStart(10, '0')` on a decimal string. -/
def padTen (s : String) : String :=
  String.mk (List.replicate (10 - s.length) '0') ++ s

/-- One in-use cross-reference row: offset padded to 10 digits, generation
`00000`, marker `n`, trailing space (joined with newlines by `build`). -/
def xrefRow (off : Nat) : String := padTen (toString off) ++ " 00000 n "

/-- The cross-reference section: `xref`, subsection line `0 {count+1}`, the
synthetic free entry `0000000000 65535 f `, then one row per object. -/
def xrefSection (objects : List PdfBody) : String :=
  "xref\n0 " ++ toString (objects.length + 1) ++ "\n" ++
  String.intercalate "\n"
    ("0000000000 65535 f " :: (offsetsFrom pdfHeader.length 1 objects).map xrefRow) ++ "\n"

/-- Byte offset at which the cross-reference section begins: the running
`offset` variable after the forEach loop. -/
def xrefStartOf (objects : List PdfBody) : Nat :=
  pdfHeader.length + ((objBlocksFrom 1 objects).flatten).length

/-- The trailer: `/Size`, `/Root`, `startxref` pointer, `%%EOF`. -/
def trailerSection (objects : List PdfBody) (rootObjectId : Nat) : String :=
  "trailer\n<< /Size " ++ toString (objects.length + 1) ++ " /Root " ++
  toString rootObjectId ++ " 0 R >>\nstartxref\n" ++
  toString (xrefStartOf objects) ++ "\n%%EOF\n"

/-- `PdfBuilder.build`: header, all object blocks in registration order, then
the cross-reference section and trailer as one final chunk. -/
def build (objects : List PdfBody) (rootObjectId : Nat) : List Nat :=
  pdfHeader ++ (objBlocksFrom 1 objects).flatten ++
  strBytes (xrefSection objects ++ trailerSection objects rootObjectId)

theorem offsetsFrom_length (objects : List PdfBody) :
    ∀ pos k, (offsetsFrom pos k objects).length = objects.length := by
  induction objects with
  | nil => intro pos k; rfl
  | cons b rest ih => intro pos k; simp [offsetsFrom, ih]

theorem drop_at_offsetFrom :
    ∀ (objects : List PdfBody) (i off k pos : Nat),
      (offsetsFrom pos k objects)[i]? = some off →
      ∀ (pre suf : List Nat), pre.length = pos →
        (pre ++ (objBlocksFrom k objects).flatten ++ suf).drop off =
          (objBlocksFrom (k + i) (objects.drop i)).flatten ++ suf := by
  intro objects
  induction objects with
  | nil => intro i off k pos h; simp [offsetsFrom] at h
  | cons b rest ih =>
    intro i off k pos h pre suf hpre
    cases i with
    | zero =>
      simp only [offsetsFrom, List.getElem?_cons_zero, Option.some.injEq] at h
      subst h
      simp [← hpre, objBlocksFrom, List.drop_append_of_le_length, List.append_assoc]
    | succ j =>
      simp only [offsetsFrom, List.getElem?_cons_succ] at h
      have := ih j off (k + 1) (pos + (objBlock k b).length) h
        (pre ++ objBlock k b) suf (by simp [hpre])
      simp only [objBlocksFrom, List.flatten_cons, List.drop_succ_cons, List.append_assoc] at *
      rw [show k + (j + 1) = k + 1 + j by omega]
      rw [← this]

/-- C1: for every sequence of registered objects and any root id, `build`
records, for each object i (1-based), a cross-reference offset at which the
bytes `"{i} 0 obj"` really begin in the output; each xref row is the offset
zero-padded to 10 digits followed by the `00000 n` fields, the synthetic
zeroth entry is `0000000000 65535 f`, the trailer's `/Size` is the object
count plus one and `/Root` names the given root id, and the `startxref`
value is the byte offset at which the xref section begins. -/
theorem C1_build_xref_offsets (objects : List PdfBody) (rootObjectId : Nat) :
    (offsetsFrom pdfHeader.length 1 objects).length = objects.length ∧
    (∀ i off, (offsetsFrom pdfHeader.length 1 objects)[i]? = some off →
      strBytes (toString (i + 1) ++ " 0 obj") <+: (build objects rootObjectId).drop off) ∧
    xrefSection objects =
      "xref\n0 " ++ toString (objects.length + 1) ++ "\n" ++
        String.intercalate "\n" ("0000000000 65535 f " ::
          (offsetsFrom pdfHeader.length 1 objects).map
            (fun off => padTen (toString off) ++ " 00000 n ")) ++ "\n" ∧
    trailerSection objects rootObjectId =
      "trailer\n<< /Size " ++ toString (objects.length + 1) ++ " /Root " ++
        toString rootObjectId ++ " 0 R >>\nstartxref\n" ++
        toString (xrefStartOf objects) ++ "\n%%EOF\n" ∧
    strBytes "xref" <+: (build objects rootObjectId).drop (xrefStartOf objects) ∧
    build objects rootObjectId =
      pdfHeader ++ (objBlocksFrom 1 objects).flatten ++
        strBytes (xrefSection objects ++ trailerSection objects rootObjectId) := by
  refine ⟨offsetsFrom_length objects _ _, ?_, rfl, rfl, ?_, rfl⟩
  · intro i off h
    have hdrop := drop_at_offsetFrom objects i off 1 pdfHeader.length h
      pdfHeader (strBytes (xrefSection objects ++ trailerSection objects rootObjectId)) rfl
    have hi : i < objects.length := by
      have hlen := offsetsFrom_length objects pdfHeader.length 1
      obtain ⟨hlt, -⟩ := List.getElem?_eq_some_iff.mp h
      omega
    obtain ⟨b, rest', hbr⟩ : ∃ b rest', objects.drop i = b :: rest' := by
      cases hd : objects.drop i with
      | nil => exfalso; have := List.drop_eq_nil_iff.mp hd; omega
      | cons b r => exact ⟨b, r, rfl⟩
    show strBytes (toString (i + 1) ++ " 0 obj") <+: (build objects rootObjectId).drop off
    unfold build
    rw [show pdfHeader ++ (objBlocksFrom 1 objects).flatten ++
          strBytes (xrefSection objects ++ trailerSection objects rootObjectId) =
        pdfHeader ++ ((objBlocksFrom 1 objects).flatten ++
          strBytes (xrefSection objects ++ trailerSection objects rootObjectId)) by
      simp [List.append_assoc]]
    rw [show pdfHeader ++ ((objBlocksFrom 1 objects).flatten ++
          strBytes (xrefSection objects ++ trailerSection objects rootObjectId)) =
        pdfHeader ++ (objBlocksFrom 1 objects).flatten ++
          strBytes (xrefSection objects ++ trailerSection objects rootObjectId) by
      simp [List.append_assoc]]
    rw [hdrop, hbr]
    have hsplit : toString (1 + i) ++ " 0 obj\n" = (toString (i + 1) ++ " 0 obj") ++ "\n" := by
      rw [Nat.add_comm 1 i, String.append_assoc]
      exact congrArg (fun t => toString (i + 1) ++ t) (by decide)
    simp only [objBlocksFrom, List.flatten_cons, objBlock, hsplit, strBytes_append,
      List.append_assoc]
    rw [← List.append_assoc]
    exact List.prefix_append _ _
  · unfold build xrefStartOf
    rw [show pdfHeader.length + (objBlocksFrom 1 objects).flatten.length =
          (pdfHeader ++ (objBlocksFrom 1 objects).flatten).length by simp]
    rw [List.drop_left]
    rw [strBytes_append]
    unfold xrefSection
    simp only [strBytes_append, List.append_assoc]
    exact (show strBytes "xref" <+: strBytes "xref\n0 " by decide).trans
      (List.prefix_append _ _)

/-- Witness for C1 at a one-object document. -/
theorem C1_build_xref_offsets_witness :
    (offsetsFrom pdfHeader.length 1 [placeholderBody])[0]? = some 15 ∧
      strBytes (toString (0 + 1) ++ " 0 obj") <+: (build [placeholderBody] 1).drop 15 :=
  ⟨by decide, (C1_build_xref_offsets [placeholderBody] 1).2.1 0 15 (by decide)⟩

/-- Sequence of `addObject` calls on a builder state, collecting the returned
identifiers (the registration pattern of `createPdf`). -/
def runAdds : List PdfBody → List PdfBody → List PdfBody × List Nat
  | objects, [] => (objects, [])
  | objects, b :: bs =>
    let r := addObject objects b
    let rest := runAdds r.1 bs
    (rest.1, r.2 :: rest.2)

theorem runAdds_spec (bs : List PdfBody) :
    ∀ objects, (runAdds objects bs).2 = List.range' (objects.length + 1) bs.length ∧
      (runAdds objects bs).1 = objects ++ bs := by
  induction bs with
  | nil => intro objects; simp [runAdds]
  | cons b rest ih =>
    intro objects
    simp only [runAdds, addObject]
    refine ⟨?_, ?_⟩
    · rw [(ih (objects ++ [b])).1, List.length_cons, List.range'_succ]
      simp [List.length_append]
    · rw [(ih (objects ++ [b])).2]; simp

/-- C7: identifiers are assigned densely and strictly increasing in
registration order — the k-th registered object (1-based) receives id k when
starting from a fresh builder — and `setObject id body` on a previously
registered id changes only that object's body: the object count, every other
object's body, and hence every object's identifier (its 1-based position)
are unchanged. -/
theorem C7_builder_ids_frame (bodies : List PdfBody) (objects : List PdfBody)
    (objectId : Nat) (newBody : PdfBody)
    (h1 : 1 ≤ objectId) (h2 : objectId ≤ objects.length) :
    (runAdds [] bodies).2 = List.range' 1 bodies.length ∧
    (runAdds [] bodies).1 = bodies ∧
    (∀ k body, bodies[k]? = some body → (runAdds [] bodies).2[k]? = some (k + 1)) ∧
    (setObject objects objectId newBody).length = objects.length ∧
    (setObject objects objectId newBody)[objectId - 1]? = some newBody ∧
    (∀ j, j ≠ objectId - 1 →
      (setObject objects objectId newBody)[j]? = objects[j]?) := by
  obtain ⟨hids, hobjs⟩ := runAdds_spec bodies []
  simp only [List.length_nil, Nat.zero_add, List.nil_append] at hids hobjs
  refine ⟨hids, hobjs, ?_, ?_, ?_, ?_⟩
  · intro k body hk
    obtain ⟨hlt, -⟩ := List.getElem?_eq_some_iff.mp hk
    rw [hids]
    rw [List.getElem?_eq_getElem (by simpa using hlt)]
    simp [List.getElem_range', Nat.add_comm]
  · simp [setObject]
  · unfold setObject
    exact List.getElem?_set_eq_of_lt newBody (by omega)
  · intro j hj
    unfold setObject
    rw [List.getElem?_set_ne (by omega)]

/-- Witness for C7 at a concrete two-object builder. -/
theorem C7_builder_ids_frame_witness :
    (1 : Nat) ≤ 2 ∧ (2 : Nat) ≤ [[(7 : Nat)], [8]].length ∧
      ((runAdds [] [[(5 : Nat)], [6]]).2 = List.range' 1 2 ∧
        (runAdds [] [[(5 : Nat)], [6]]).1 = [[5], [6]] ∧
        (∀ k body, [[(5 : Nat)], [6]][k]? = some body →
          (runAdds [] [[(5 : Nat)], [6]]).2[k]? = some (k + 1)) ∧
        (setObject [[(7 : Nat)], [8]] 2 [9]).length = [[(7 : Nat)], [8]].length ∧
        (setObject [[(7 : Nat)], [8]] 2 [9])[2 - 1]? = some [9] ∧
        (∀ j, j ≠ 2 - 1 →
          (setObject [[(7 : Nat)], [8]] 2 [9])[j]? = [[(7 : Nat)], [8]][j]?)) :=
  ⟨by decide, by decide,
    C7_builder_ids_frame [[5], [6]] [[7], [8]] 2 [9] (by decide) (by decide)⟩

/-! ## Tile Catalog (part_005 lines 22–32, 185–247) -/

inductive Suit
  | m | p | s | z
deriving DecidableEq, Repr

/-- `SUIT_ORDER`: primary sort rank of each suit symbol (m, p, s, z). -/
def SUIT_ORDER : Suit → Nat
  | .m => 0
  | .p => 1
  | .s => 2
  | .z => 3

/-- `HONOR_PRINT_ORDER`: honor-tile print ranks — 5, 6, 7 ahead of 1, 2, 3, 4. -/
def HONOR_PRINT_ORDER (n : Nat) : Option Nat :=
  match n with
  | 5 => some 0
  | 6 => some 1
  | 7 => some 2
  | 1 => some 3
  | 2 => some 4
  | 3 => some 5
  | 4 => some 6
  | _ => none

/-- `Number.MAX_SAFE_INTEGER`, the comparator's fallback for unmapped ranks. -/
def MAX_SAFE_INTEGER : Nat := 9007199254740991

/-- `HONOR_PRINT_ORDER[n] ?? Number.MAX_SAFE_INTEGER`. -/
def honorRank (n : Nat) : Nat := (HONOR_PRINT_ORDER n).getD MAX_SAFE_INTEGER

/-- The suit symbol alphabet of the identity grammar (case-insensitive). -/
def suitOfChar (c : Char) : Option Suit :=
  match c.toLower with
  | 'm' => some .m
  | 'p' => some .p
  | 's' => some .s
  | 'z' => some .z
  | _ => none

/-- Decimal value of a digit string (`Number(numberPart)`). -/
def digitsVal (ds : List Char) : Nat :=
  ds.foldl (fun acc c => acc * 10 + (c.toNat - 48)) 0

/-- `parseTileName`: the regex `^(\d+)([mpsz])$/i` — one or more ASCII
digits followed by exactly one suit symbol, matched case-insensitively
against the whole label; the digit part is read as a decimal number. -/
def parseTileName (label : String) : Option (Nat × Suit) :=
  match label.data.getLast? with
  | none => none
  | some c =>
    match suitOfChar c with
    | none => none
    | some su =>
      let ds := label.data.dropLast
      if ds ≠ [] ∧ ds.all Char.isDigit then some (digitsVal ds, su) else none

/-- Total lexicographic three-way comparison of code-point lists. -/
def lexCmpL : List Nat → List Nat → Int
  | [], [] => 0
  | [], _ :: _ => -1
  | _ :: _, [] => 1
  | a :: as, b :: bs => if a < b then -1 else if b < a then 1 else lexCmpL as bs

/-- The embedding of the comparator's `localeCompare` tie-break: on the
ASCII labels this program compares, default-locale collation and
code-point order agree, so it is modelled as lexicographic comparison of
the labels' code points. -/
def strCmp (a b : String) : Int := lexCmpL (strBytes a) (strBytes b)

structure ParsedTileFile where
  filePath : String
  label : String
deriving DecidableEq, Repr

/-- The comparator body of `sortTileFiles`, on labels (the comparator reads
only the `label` fields of its arguments). -/
def cmpLabel (a b : String) : Int :=
  match parseTileName a, parseTileName b with
  | some pa, some pb =>
    if pa.2 ≠ pb.2 then (SUIT_ORDER pa.2 : Int) - (SUIT_ORDER pb.2 : Int)
    else if pa.2 = Suit.z ∧ pb.2 = Suit.z ∧ honorRank pa.1 ≠ honorRank pb.1 then
      (honorRank pa.1 : Int) - (honorRank pb.1 : Int)
    else if pa.1 ≠ pb.1 then (pa.1 : Int) - (pb.1 : Int)
    else strCmp a b
  | some _, none => -1
  | none, some _ => 1
  | none, none => strCmp a b

def compareTiles (a b : ParsedTileFile) : Int := cmpLabel a.label b.label

/-- Stable insertion w.r.t. the comparator: a later element is placed after
earlier elements that compare equal, matching the stability guaranteed by
`Array.prototype.sort`. -/
def insertTile (x : ParsedTileFile) : List ParsedTileFile → List ParsedTileFile
  | [] => [x]
  | y :: ys => if compareTiles x y < 0 then x :: y :: ys else y :: insertTile x ys

/-- `sortTileFiles`: sort a copy of the list with the comparator
(`Array.prototype.sort` is a stable comparator sort; a stable insertion
sort produces the same output). -/
def sortTileFiles (files : List ParsedTileFile) : List ParsedTileFile :=
  files.foldl (fun acc f => insertTile f acc) []

end MahjongPdf

namespace MahjongPdf

/-- Index of the last `'.'` in a character list, if any. -/
def lastDotIdx : List Char → Option Nat
  | [] => none
  | c :: rest =>
    match lastDotIdx rest with
    | some i => some (i + 1)
    | none => if c = '.' then some 0 else none

/-- `path.extname`: the substring from the last `'.'` of the name to its
end; empty when there is no `'.'` or the only `'.'` is the leading
character (the names fed to it here are plain file names). -/
def extnameOf (name : String) : String :=
  match lastDotIdx name.data with
  | none => ""
  | some 0 => ""
  | some i => String.mk (name.data.drop i)

/-- `path.basename(name, ext)` on a plain file name: strips `ext` when it
is a proper (non-whole) suffix of the name. -/
def basenameMinus (name ext : String) : String :=
  if ext ≠ "" ∧ name ≠ ext ∧ ext.data <:+ name.data then
    String.mk (name.data.take (name.data.length - ext.data.length))
  else name

/-- The `/\.png$/i` filter on entry names. -/
def isPngName (name : String) : Bool :=
  decide (['.', 'p', 'n', 'g'] <:+ name.data.map Char.toLower)

/-- `findPngFiles`, minus the filesystem call: takes the directory's file
entry names (`fs.readdir` filtered to plain files), keeps `.png` names,
labels each with its basename minus extension (`path.basename(name,
path.extname(name))`), excludes labels that do not parse under the identity
grammar, and sorts the rest (`path.join` is modelled as `dir ++ "/" ++
name`). -/
def findPngFiles (inputDir : String) (names : List String) : List ParsedTileFile :=
  let pngs := (names.filter (fun n => isPngName n)).map (fun n =>
    { filePath := inputDir ++ "/" ++ n,
      label := basenameMinus n (extnameOf n) : ParsedTileFile })
  sortTileFiles (pngs.filter (fun e => (parseTileName e.label).isSome))

theorem mem_insertTile {y x : ParsedTileFile} :
    ∀ {l : List ParsedTileFile}, y ∈ insertTile x l ↔ y = x ∨ y ∈ l := by
  intro l
  induction l with
  | nil => simp [insertTile]
  | cons z zs ih =>
    unfold insertTile
    by_cases h : compareTiles x z < 0 <;> simp [h, ih] <;> tauto

theorem mem_sortTileFiles {y : ParsedTileFile} {l : List ParsedTileFile} :
    y ∈ sortTileFiles l ↔ y ∈ l := by
  suffices h : ∀ (l acc : List ParsedTileFile),
      y ∈ l.foldl (fun acc f => insertTile f acc) acc ↔ y ∈ acc ∨ y ∈ l by
    unfold sortTileFiles; rw [h]; simp
  intro l
  induction l with
  | nil => simp
  | cons z zs ih =>
    intro acc
    simp only [List.foldl_cons, ih, mem_insertTile, List.mem_cons]
    tauto

/-- C8 counterexample: the catalog scan includes `10m.png`, whose parsed
identity has rank 10 — outside 1..9 — because `parseTileName` accepts any
non-empty digit string. The claim's rank bounds (1..9 numeric, 1..7 honor)
do not hold of the code. -/
theorem C8_rank_range_cex :
    findPngFiles "out" ["10m.png"] =
      [{ filePath := "out/10m.png", label := "10m" }] ∧
    parseTileName "10m" = some (10, Suit.m) ∧ ¬ (1 ≤ 10 ∧ 10 ≤ 9) := by
  decide

/-- C8 (amended): every `TileFile` produced by the catalog scan has a
successfully parsed identity — a non-empty decimal rank (not bounded to
1..9 or 1..7) and a suit from the four-symbol alphabet — and every file
whose name minus extension does not parse is excluded from the catalog. -/
theorem C8_catalog_parsed (inputDir : String) (names : List String) :
    ∀ e ∈ findPngFiles inputDir names, ∃ pr, parseTileName e.label = some pr := by
  intro e he
  unfold findPngFiles at he
  rw [mem_sortTileFiles] at he
  have := (List.mem_filter.mp he).2
  exact Option.isSome_iff_exists.mp (by simpa using this)

/-- Witness for C8 at a concrete directory listing. -/
theorem C8_catalog_parsed_witness :
    ({ filePath := "out/1m.png", label := "1m" } : ParsedTileFile) ∈
      findPngFiles "out" ["1m.png", "junk.png"] ∧
    ∃ pr, parseTileName ("1m" : String) = some pr :=
  ⟨by decide,
    C8_catalog_parsed "out" ["1m.png", "junk.png"]
      { filePath := "out/1m.png", label := "1m" } (by decide)⟩

theorem lexCmpL_self : ∀ l : List Nat, lexCmpL l l = 0
  | [] => rfl
  | a :: as => by simp [lexCmpL, lexCmpL_self as]

theorem lexCmpL_eq_zero_iff : ∀ a b : List Nat, lexCmpL a b = 0 ↔ a = b
  | [], [] => by simp [lexCmpL]
  | [], _ :: _ => by simp [lexCmpL]
  | _ :: _, [] => by simp [lexCmpL]
  | x :: xs, y :: ys => by
    simp only [lexCmpL]
    split_ifs with h1 h2
    · constructor
      · intro h; exact absurd h (by decide)
      · intro h; injection h with hx _; omega
    · constructor
      · intro h; exact absurd h (by decide)
      · intro h; injection h with hx _; omega
    · have hxy : x = y := by omega
      subst hxy
      rw [lexCmpL_eq_zero_iff xs ys]
      constructor
      · intro h; rw [h]
      · intro h; injection h

theorem lexCmpL_trans : ∀ a b c : List Nat,
    lexCmpL a b < 0 → lexCmpL b c < 0 → lexCmpL a c < 0
  | [], [], _ => by simp [lexCmpL]
  | [], _ :: _, [] => by intro _ h; exact absurd h (by simp [lexCmpL])
  | [], _ :: _, _ :: _ => by simp [lexCmpL]
  | _ :: _, [], _ => by simp [lexCmpL]
  | _ :: _, _ :: _, [] => by intro _ h; exact absurd h (by simp [lexCmpL])
  | a0 :: as, b0 :: bs, c0 :: cs => by
    intro hab hbc
    simp only [lexCmpL] at hab hbc ⊢
    by_cases h1 : a0 < b0
    · by_cases h3 : b0 < c0
      · rw [if_pos (show a0 < c0 by omega)]; decide
      · by_cases h4 : c0 < b0
        · rw [if_neg h3, if_pos h4] at hbc; exact absurd hbc (by decide)
        · rw [if_pos (show a0 < c0 by omega)]; decide
    · by_cases h2 : b0 < a0
      · rw [if_neg h1, if_pos h2] at hab; exact absurd hab (by decide)
      · have ha0 : a0 = b0 := by omega
        subst ha0
        by_cases h3 : a0 < c0
        · rw [if_pos h3]; decide
        · by_cases h4 : c0 < a0
          · rw [if_neg h3, if_pos h4] at hbc; exact absurd hbc (by decide)
          · rw [if_neg h1, if_neg h2] at hab
            rw [if_neg h3, if_neg h4] at hbc ⊢
            exact lexCmpL_trans as bs cs hab hbc

theorem lexCmpL_antisymm : ∀ a b : List Nat, lexCmpL b a = - lexCmpL a b
  | [], [] => rfl
  | [], _ :: _ => rfl
  | _ :: _, [] => rfl
  | x :: xs, y :: ys => by
    by_cases h1 : x < y
    · have h2 : ¬ y < x := by omega
      simp [lexCmpL, h1, h2]
    · by_cases h2 : y < x
      · simp [lexCmpL, h1, h2]
      · simp [lexCmpL, h1, h2, lexCmpL_antisymm xs ys]

theorem SUIT_ORDER_inj : ∀ x y : Suit, SUIT_ORDER x = SUIT_ORDER y → x = y := by
  intro x y
  cases x <;> cases y <;> simp [SUIT_ORDER]

theorem strBytes_inj {a b : String} (h : strBytes a = strBytes b) : a = b := by
  unfold strBytes at h
  have hchar : ∀ c d : Char, c.toNat = d.toNat → c = d := by
    intro c d hcd
    have := congrArg Char.ofNat hcd
    rwa [Char.ofNat_toNat, Char.ofNat_toNat] at this
  have hdata : a.data = b.data := by
    have hinj : Function.Injective Char.toNat := fun c d => hchar c d
    exact List.map_injective_iff.mpr hinj h
  cases a; cases b; exact congrArg String.mk hdata

/-- Honor-suit secondary key of a parsed identity (0 on the numeric suits,
where the comparator's honor branch never fires). -/
def honorKey (pr : Nat × Suit) : Nat :=
  if pr.2 = Suit.z then honorRank pr.1 else 0

theorem honorKey_z (n : Nat) : honorKey (n, Suit.z) = honorRank n := by
  simp [honorKey]

theorem honorKey_of_ne {s : Suit} (hz : s ≠ Suit.z) (n : Nat) : honorKey (n, s) = 0 := by
  simp [honorKey, hz]

/-- A sort key that realizes `cmpLabel` lexicographically:
parsed-flag (0 parsed, 1 unparsed), suit rank, honor print rank (honor suit
only), numeric rank, label code points. -/
def labelKey (label : String) : Nat × Nat × Nat × Nat × List Nat :=
  match parseTileName label with
  | some pr => (0, SUIT_ORDER pr.2, honorKey pr, pr.1, strBytes label)
  | none => (1, 0, 0, 0, strBytes label)

/-- Lexicographic strict order on sort keys. -/
def keyLt (k1 k2 : Nat × Nat × Nat × Nat × List Nat) : Prop :=
  k1.1 < k2.1 ∨ (k1.1 = k2.1 ∧ (k1.2.1 < k2.2.1 ∨ (k1.2.1 = k2.2.1 ∧
    (k1.2.2.1 < k2.2.2.1 ∨ (k1.2.2.1 = k2.2.2.1 ∧
      (k1.2.2.2.1 < k2.2.2.2.1 ∨ (k1.2.2.2.1 = k2.2.2.2.1 ∧
        lexCmpL k1.2.2.2.2 k2.2.2.2.2 < 0)))))))

theorem keyLt_trans {k1 k2 k3 : Nat × Nat × Nat × Nat × List Nat}
    (h12 : keyLt k1 k2) (h23 : keyLt k2 k3) : keyLt k1 k3 := by
  obtain ⟨f1, s1, h1, n1, l1⟩ := k1
  obtain ⟨f2, s2, h2, n2, l2⟩ := k2
  obtain ⟨f3, s3, h3, n3, l3⟩ := k3
  simp only [keyLt] at h12 h23 ⊢
  rcases h12 with hf12 | ⟨hf12, h12⟩
  · rcases h23 with hf23 | ⟨hf23, h23⟩ <;> exact Or.inl (by omega)
  · rcases h23 with hf23 | ⟨hf23, h23⟩
    · exact Or.inl (by omega)
    · refine Or.inr ⟨by omega, ?_⟩
      rcases h12 with hs12 | ⟨hs12, h12⟩
      · rcases h23 with hs23 | ⟨hs23, h23⟩ <;> exact Or.inl (by omega)
      · rcases h23 with hs23 | ⟨hs23, h23⟩
        · exact Or.inl (by omega)
        · refine Or.inr ⟨by omega, ?_⟩
          rcases h12 with hh12 | ⟨hh12, h12⟩
          · rcases h23 with hh23 | ⟨hh23, h23⟩ <;> exact Or.inl (by omega)
          · rcases h23 with hh23 | ⟨hh23, h23⟩
            · exact Or.inl (by omega)
            · refine Or.inr ⟨by omega, ?_⟩
              rcases h12 with hn12 | ⟨hn12, h12⟩
              · rcases h23 with hn23 | ⟨hn23, h23⟩ <;> exact Or.inl (by omega)
              · rcases h23 with hn23 | ⟨hn23, h23⟩
                · exact Or.inl (by omega)
                · exact Or.inr ⟨by omega, by
                    subst hn12
                    exact lexCmpL_trans l1 l2 l3 h12 h23⟩

theorem cmpLabel_lt_iff (a b : String) :
    cmpLabel a b < 0 ↔ keyLt (labelKey a) (labelKey b) := by
  cases hpa : parseTileName a with
  | none =>
    cases hpb : parseTileName b with
    | none =>
      simp only [cmpLabel, labelKey, hpa, hpb, keyLt, strCmp]
      constructor
      · intro h
        exact Or.inr ⟨by trivial, Or.inr ⟨by trivial, Or.inr ⟨by trivial, Or.inr ⟨by trivial, h⟩⟩⟩⟩
      · rintro (h | ⟨-, h | ⟨-, h | ⟨-, h | ⟨-, h⟩⟩⟩⟩)
        · exact absurd h (lt_irrefl 1)
        · exact absurd h (lt_irrefl 0)
        · exact absurd h (lt_irrefl 0)
        · exact absurd h (lt_irrefl 0)
        · exact h
    | some pb =>
      simp only [cmpLabel, labelKey, hpa, hpb, keyLt]
      constructor
      · intro h
        exact absurd h (by decide)
      · rintro (h | ⟨he, -⟩)
        · exact absurd h (by omega)
        · exact absurd he (by omega)
  | some pa =>
    cases hpb : parseTileName b with
    | none =>
      simp only [cmpLabel, labelKey, hpa, hpb, keyLt]
      constructor
      · intro _
        exact Or.inl (by omega)
      · intro _
        decide
    | some pb =>
      obtain ⟨na, sa⟩ := pa
      obtain ⟨nb, sb⟩ := pb
      simp only [cmpLabel, labelKey, hpa, hpb, keyLt]
      by_cases hs : sa = sb
      · subst hs
        rw [if_neg (by simp)]
        by_cases hz : sa = Suit.z
        · subst hz
          by_cases hh : honorRank na ≠ honorRank nb
          · rw [if_pos ⟨rfl, rfl, hh⟩]
            simp only [honorKey_z]
            constructor
            · intro h
              exact Or.inr ⟨by trivial, Or.inr ⟨by trivial, Or.inl (by omega)⟩⟩
            · rintro (h | ⟨-, h | ⟨-, h | ⟨he, -⟩⟩⟩)
              · exact absurd h (lt_irrefl 0)
              · exact absurd h (lt_irrefl _)
              · omega
              · exact absurd he hh
          · rw [if_neg (fun hc => hh hc.2.2)]
            have hh2 : honorRank na = honorRank nb := not_not.mp hh
            by_cases hn : na ≠ nb
            · rw [if_pos hn]
              simp only [honorKey_z]
              constructor
              · intro h
                exact Or.inr ⟨by trivial, Or.inr ⟨by trivial, Or.inr ⟨hh2, Or.inl (by omega)⟩⟩⟩
              · rintro (h | ⟨-, h | ⟨-, h | ⟨-, h | ⟨he, -⟩⟩⟩⟩)
                · exact absurd h (lt_irrefl 0)
                · exact absurd h (lt_irrefl _)
                · omega
                · omega
                · exact absurd he hn
            · have hn2 : na = nb := not_not.mp hn
              subst hn2
              rw [if_neg hn]
              simp only [honorKey_z, strCmp]
              constructor
              · intro h
                exact Or.inr ⟨by trivial, Or.inr ⟨by trivial, Or.inr ⟨by trivial, Or.inr ⟨by trivial, h⟩⟩⟩⟩
              · rintro (h | ⟨-, h | ⟨-, h | ⟨-, h | ⟨-, h⟩⟩⟩⟩)
                · exact absurd h (lt_irrefl 0)
                · exact absurd h (lt_irrefl _)
                · exact absurd h (lt_irrefl _)
                · exact absurd h (lt_irrefl _)
                · exact h
        · rw [if_neg (fun hc => hz hc.1)]
          simp only [honorKey_of_ne hz]
          by_cases hn : na ≠ nb
          · rw [if_pos hn]
            constructor
            · intro h
              exact Or.inr ⟨by trivial, Or.inr ⟨by trivial, Or.inr ⟨by trivial, Or.inl (by omega)⟩⟩⟩
            · rintro (h | ⟨-, h | ⟨-, h | ⟨-, h | ⟨he, -⟩⟩⟩⟩)
              · exact absurd h (lt_irrefl 0)
              · exact absurd h (lt_irrefl _)
              · exact absurd h (lt_irrefl 0)
              · omega
              · exact absurd he hn
          · have hn2 : na = nb := not_not.mp hn
            subst hn2
            rw [if_neg hn]
            simp only [strCmp]
            constructor
            · intro h
              exact Or.inr ⟨by trivial, Or.inr ⟨by trivial, Or.inr ⟨by trivial, Or.inr ⟨by trivial, h⟩⟩⟩⟩
            · rintro (h | ⟨-, h | ⟨-, h | ⟨-, h | ⟨-, h⟩⟩⟩⟩)
              · exact absurd h (lt_irrefl 0)
              · exact absurd h (lt_irrefl _)
              · exact absurd h (lt_irrefl 0)
              · exact absurd h (lt_irrefl _)
              · exact h
      · rw [if_pos (by simpa using hs)]
        have hso : SUIT_ORDER sa ≠ SUIT_ORDER sb := fun h => hs (SUIT_ORDER_inj sa sb h)
        constructor
        · intro h
          exact Or.inr ⟨by trivial, Or.inl (by omega)⟩
        · rintro (h | ⟨-, h | ⟨he, -⟩⟩)
          · exact absurd h (lt_irrefl 0)
          · omega
          · exact absurd he hso

theorem labelKey_last (l : String) : (labelKey l).2.2.2.2 = strBytes l := by
  unfold labelKey
  cases parseTileName l <;> rfl

theorem cmpLabel_eq_zero_iff_key (a b : String) :
    cmpLabel a b = 0 ↔ labelKey a = labelKey b := by
  cases hpa : parseTileName a with
  | none =>
    cases hpb : parseTileName b with
    | none =>
      simp only [cmpLabel, labelKey, hpa, hpb, strCmp]
      constructor
      · intro h
        rw [lexCmpL_eq_zero_iff] at h
        rw [h]
      · intro h
        have hl : strBytes a = strBytes b := by
          simpa using congrArg (fun k => k.2.2.2.2) h
        rw [hl, lexCmpL_self]
    | some pb =>
      simp only [cmpLabel, labelKey, hpa, hpb]
      constructor
      · intro h
        exact absurd h (by decide)
      · intro h
        exact absurd (by simpa using congrArg (fun k => k.1) h) (by decide : ¬ (1 = 0))
  | some pa =>
    cases hpb : parseTileName b with
    | none =>
      simp only [cmpLabel, labelKey, hpa, hpb]
      constructor
      · intro h
        exact absurd h (by decide)
      · intro h
        exact absurd (by simpa using congrArg (fun k => k.1) h) (by decide : ¬ (0 = 1))
    | some pb =>
      obtain ⟨na, sa⟩ := pa
      obtain ⟨nb, sb⟩ := pb
      simp only [cmpLabel, labelKey, hpa, hpb]
      by_cases hs : sa = sb
      · subst hs
        rw [if_neg (by simp)]
        by_cases hz : sa = Suit.z
        · subst hz
          by_cases hh : honorRank na ≠ honorRank nb
          · rw [if_pos ⟨rfl, rfl, hh⟩]
            constructor
            · intro h
              exact absurd (by omega : honorRank na = honorRank nb) hh
            · intro h
              have h2 : honorKey (na, Suit.z) = honorKey (nb, Suit.z) := by
                simpa using congrArg (fun k => k.2.2.1) h
              rw [honorKey_z, honorKey_z] at h2
              exact absurd h2 hh
          · rw [if_neg (fun hc => hh hc.2.2)]
            have hh2 : honorRank na = honorRank nb := not_not.mp hh
            by_cases hn : na ≠ nb
            · rw [if_pos hn]
              constructor
              · intro h
                exact absurd (by omega : na = nb) hn
              · intro h
                exact absurd (by simpa using congrArg (fun k => k.2.2.2.1) h) hn
            · have hn2 : na = nb := not_not.mp hn
              subst hn2
              rw [if_neg hn]
              simp only [strCmp]
              constructor
              · intro h
                rw [lexCmpL_eq_zero_iff] at h
                rw [h]
              · intro h
                have hl : strBytes a = strBytes b := by
                  simpa using congrArg (fun k => k.2.2.2.2) h
                rw [hl, lexCmpL_self]
        · rw [if_neg (fun hc => hz hc.1)]
          by_cases hn : na ≠ nb
          · rw [if_pos hn]
            constructor
            · intro h
              exact absurd (by omega : na = nb) hn
            · intro h
              exact absurd (by simpa using congrArg (fun k => k.2.2.2.1) h) hn
          · have hn2 : na = nb := not_not.mp hn
            subst hn2
            rw [if_neg hn]
            simp only [strCmp]
            constructor
            · intro h
              rw [lexCmpL_eq_zero_iff] at h
              rw [h]
            · intro h
              have hl : strBytes a = strBytes b := by
                simpa using congrArg (fun k => k.2.2.2.2) h
              rw [hl, lexCmpL_self]
      · rw [if_pos (by simpa using hs)]
        have hso : SUIT_ORDER sa ≠ SUIT_ORDER sb := fun h => hs (SUIT_ORDER_inj sa sb h)
        constructor
        · intro h
          exact absurd (by omega : SUIT_ORDER sa = SUIT_ORDER sb) hso
        · intro h
          exact absurd (by simpa using congrArg (fun k => k.2.1) h) hso

theorem lexCmpL_tri (a b : List Nat) :
    lexCmpL a b < 0 ∨ lexCmpL a b = 0 ∨ lexCmpL b a < 0 := by
  rcases lt_trichotomy (lexCmpL a b) 0 with h | h | h
  · exact Or.inl h
  · exact Or.inr (Or.inl h)
  · refine Or.inr (Or.inr ?_)
    rw [lexCmpL_antisymm]
    omega

theorem keyLt_connex (k1 k2 : Nat × Nat × Nat × Nat × List Nat) :
    keyLt k1 k2 ∨ k1 = k2 ∨ keyLt k2 k1 := by
  obtain ⟨f1, s1, h1, n1, l1⟩ := k1
  obtain ⟨f2, s2, h2, n2, l2⟩ := k2
  simp only [keyLt, Prod.mk.injEq]
  rcases Nat.lt_trichotomy f1 f2 with hf | hf | hf
  · exact Or.inl (Or.inl hf)
  · rcases Nat.lt_trichotomy s1 s2 with hs | hs | hs
    · exact Or.inl (Or.inr ⟨hf, Or.inl hs⟩)
    · rcases Nat.lt_trichotomy h1 h2 with hh | hh | hh
      · exact Or.inl (Or.inr ⟨hf, Or.inr ⟨hs, Or.inl hh⟩⟩)
      · rcases Nat.lt_trichotomy n1 n2 with hn | hn | hn
        · exact Or.inl (Or.inr ⟨hf, Or.inr ⟨hs, Or.inr ⟨hh, Or.inl hn⟩⟩⟩)
        · rcases lexCmpL_tri l1 l2 with hl | hl | hl
          · exact Or.inl (Or.inr ⟨hf, Or.inr ⟨hs, Or.inr ⟨hh, Or.inr ⟨hn, hl⟩⟩⟩⟩)
          · exact Or.inr (Or.inl ⟨hf, hs, hh, hn, (lexCmpL_eq_zero_iff l1 l2).mp hl⟩)
          · exact Or.inr (Or.inr (Or.inr ⟨hf.symm,
              Or.inr ⟨hs.symm, Or.inr ⟨hh.symm, Or.inr ⟨hn.symm, hl⟩⟩⟩⟩))
        · exact Or.inr (Or.inr (Or.inr ⟨hf.symm,
            Or.inr ⟨hs.symm, Or.inr ⟨hh.symm, Or.inl hn⟩⟩⟩))
      · exact Or.inr (Or.inr (Or.inr ⟨hf.symm, Or.inr ⟨hs.symm, Or.inl hh⟩⟩))
    · exact Or.inr (Or.inr (Or.inr ⟨hf.symm, Or.inl hs⟩))
  · exact Or.inr (Or.inr (Or.inl hf))

/-- C2: the catalog comparator is a strict total order keyed primarily on
suit in the fixed order m, p, s, z; within the honor suit, ranks compare in
the print order 5,6,7,1,2,3,4 (via `HONOR_PRINT_ORDER`), the other suits
compare numerically, the final tie-break is lexical comparison of the
label; unparsed labels sort after all parsed ones and lexically among
themselves; and sorting {5z, 1z, 9m, 1m, 3p} yields 1m, 9m, 3p, 5z, 1z. -/
theorem C2_comparator_strict_total_order :
    (∀ a b : ParsedTileFile, compareTiles a b = cmpLabel a.label b.label) ∧
    (∀ a : String, cmpLabel a a = 0) ∧
    (∀ a b : String, cmpLabel a b = 0 ↔ a = b) ∧
    (∀ a b c : String, cmpLabel a b < 0 → cmpLabel b c < 0 → cmpLabel a c < 0) ∧
    (∀ a b : String, cmpLabel a b < 0 ∨ cmpLabel a b = 0 ∨ cmpLabel b a < 0) ∧
    (∀ a b na sa nb sb, parseTileName a = some (na, sa) → parseTileName b = some (nb, sb) →
      sa ≠ sb → (cmpLabel a b < 0 ↔ SUIT_ORDER sa < SUIT_ORDER sb)) ∧
    (∀ a b na nb, parseTileName a = some (na, Suit.z) → parseTileName b = some (nb, Suit.z) →
      honorRank na ≠ honorRank nb → (cmpLabel a b < 0 ↔ honorRank na < honorRank nb)) ∧
    (∀ a b na nb sa, sa ≠ Suit.z → parseTileName a = some (na, sa) →
      parseTileName b = some (nb, sa) → na ≠ nb → (cmpLabel a b < 0 ↔ na < nb)) ∧
    (∀ a b pr, parseTileName a = some pr → parseTileName b = some pr →
      cmpLabel a b = strCmp a b) ∧
    (∀ a b, (parseTileName a).isSome → parseTileName b = none → cmpLabel a b = -1) ∧
    (∀ a b, parseTileName a = none → parseTileName b = none → cmpLabel a b = strCmp a b) ∧
    sortTileFiles
        [⟨"5z.png", "5z"⟩, ⟨"1z.png", "1z"⟩, ⟨"9m.png", "9m"⟩,
          ⟨"1m.png", "1m"⟩, ⟨"3p.png", "3p"⟩] =
      [⟨"1m.png", "1m"⟩, ⟨"9m.png", "9m"⟩, ⟨"3p.png", "3p"⟩,
        ⟨"5z.png", "5z"⟩, ⟨"1z.png", "1z"⟩] := by
  refine ⟨fun a b => rfl, ?_, ?_, ?_, ?_, ?_, ?_, ?_, ?_, ?_, ?_, by decide⟩
  · intro a
    exact (cmpLabel_eq_zero_iff_key a a).mpr rfl
  · intro a b
    rw [cmpLabel_eq_zero_iff_key]
    constructor
    · intro h
      exact strBytes_inj (by rw [← labelKey_last a, ← labelKey_last b, h])
    · intro h
      rw [h]
  · intro a b c hab hbc
    exact (cmpLabel_lt_iff a c).mpr
      (keyLt_trans ((cmpLabel_lt_iff a b).mp hab) ((cmpLabel_lt_iff b c).mp hbc))
  · intro a b
    rcases keyLt_connex (labelKey a) (labelKey b) with h | h | h
    · exact Or.inl ((cmpLabel_lt_iff a b).mpr h)
    · exact Or.inr (Or.inl ((cmpLabel_eq_zero_iff_key a b).mpr h))
    · exact Or.inr (Or.inr ((cmpLabel_lt_iff b a).mpr h))
  · intro a b na sa nb sb hpa hpb hs
    simp only [cmpLabel, hpa, hpb]
    rw [if_pos (by simpa using hs)]
    constructor <;> intro h <;> omega
  · intro a b na nb hpa hpb hh
    simp only [cmpLabel, hpa, hpb]
    rw [if_neg (by simp), if_pos (by simp [hh])]
    constructor <;> intro h <;> omega
  · intro a b na nb sa hz hpa hpb hn
    simp only [cmpLabel, hpa, hpb]
    rw [if_neg (by simp), if_neg (fun hc => hz hc.1), if_pos hn]
    constructor <;> intro h <;> omega
  · intro a b pr hpa hpb
    obtain ⟨n0, s0⟩ := pr
    simp only [cmpLabel, hpa, hpb]
    rw [if_neg (by simp), if_neg (fun hc => hc.2.2 rfl), if_neg (by simp)]
  · intro a b ha hb
    obtain ⟨pr, hpr⟩ := Option.isSome_iff_exists.mp ha
    simp only [cmpLabel, hpr, hb]
  · intro a b ha hb
    simp only [cmpLabel, ha, hb]

/-- Witness for C2: transitivity instantiated at the labels 1m, 9m, 3p. -/
theorem C2_comparator_strict_total_order_witness :
    cmpLabel "1m" "9m" < 0 ∧ cmpLabel "9m" "3p" < 0 ∧ cmpLabel "1m" "3p" < 0 :=
  ⟨by decide, by decide,
    C2_comparator_strict_total_order.2.2.2.1 "1m" "9m" "3p" (by decide) (by decide)⟩


/-! ## Raster Decoder (part_005 lines 249–457) -/

/-- `paethPredictor` (part_005 lines 261–274): of the three neighbors
`a` (left), `b` (up), `c` (upLeft), return the one with the smallest
absolute deviation from `p = a + b - c`, preferring left, then up. -/
def paethPredictor (a b c : Int) : Int :=
  let p := a + b - c
  let pa := (p - a).natAbs
  let pb := (p - b).natAbs
  let pc := (p - c).natAbs
  if pa ≤ pb ∧ pa ≤ pc then a
  else if pb ≤ pc then b
  else c

/-- C3 counterexample: at (left, up, upLeft) = (0, 100, 60) — all byte
values — the code returns 60 = upLeft, which is none of the claim's three
candidates left = 0, up = 100, left + up − upLeft = 40: the code's third
candidate is `upLeft` itself, while `left + up − upLeft` is only the
reference point of the distance measure. -/
theorem C3_paeth_candidates_cex :
    paethPredictor 0 100 60 = 60 ∧
    ¬ ((60 : Int) = 0 ∨ (60 : Int) = 100 ∨ (60 : Int) = 0 + 100 - 60) := by
  decide

/-- C3 (amended): for all byte values, `paethPredictor` returns whichever
of the three candidates left, up, upLeft has the smallest absolute
deviation from the reference value left + up − upLeft, preferring left on
a tie with up and preferring up over upLeft on a tie. -/
theorem C3_paeth_min (a b c : Int)
    (ha : 0 ≤ a ∧ a ≤ 255) (hb : 0 ≤ b ∧ b ≤ 255) (hc : 0 ≤ c ∧ c ≤ 255) :
    (paethPredictor a b c = a ∨ paethPredictor a b c = b ∨ paethPredictor a b c = c) ∧
    ((a + b - c) - paethPredictor a b c).natAbs =
      min ((a + b - c) - a).natAbs
        (min ((a + b - c) - b).natAbs ((a + b - c) - c).natAbs) ∧
    (((a + b - c) - a).natAbs ≤ ((a + b - c) - b).natAbs →
      ((a + b - c) - a).natAbs ≤ ((a + b - c) - c).natAbs →
      paethPredictor a b c = a) ∧
    (¬ (((a + b - c) - a).natAbs ≤ ((a + b - c) - b).natAbs ∧
        ((a + b - c) - a).natAbs ≤ ((a + b - c) - c).natAbs) →
      ((a + b - c) - b).natAbs ≤ ((a + b - c) - c).natAbs →
      paethPredictor a b c = b) := by
  simp only [paethPredictor]
  split_ifs with h1 h2
  · exact ⟨Or.inl rfl, by omega, fun _ _ => rfl, fun hcon _ => absurd h1 hcon⟩
  · exact ⟨Or.inr (Or.inl rfl), by omega, fun hx hy => absurd ⟨hx, hy⟩ h1, fun _ _ => rfl⟩
  · exact ⟨Or.inr (Or.inr rfl), by omega, fun hx hy => absurd ⟨hx, hy⟩ h1,
      fun _ hy => absurd hy h2⟩

/-- Witness for C3 (amended) at (1, 2, 3). -/
theorem C3_paeth_min_witness :
    paethPredictor 1 2 3 = 1 ∨ paethPredictor 1 2 3 = 2 ∨ paethPredictor 1 2 3 = 3 :=
  (C3_paeth_min 1 2 3 (by decide) (by decide) (by decide)).1

/-- Error taxonomy of the Raster Decoder (spec §7): container-structure
errors, unsupported-format errors, out-of-range buffer reads (the range
errors thrown by `readByte`/`readUInt32BE`), and decompression failures
surfaced by the external zlib collaborator. -/
inductive PngErr
  | malformedContainer
  | unsupportedFormat
  | rangeError
  | zlibError
deriving DecidableEq, Repr

/-- One reconstructed byte of `unfilterScanlines`' inner loop: the five
filters (0 none, 1 sub, 2 up, 3 average, 4 Paeth), with `& 0xff`
wraparound; an unknown selector is an error (`none`). -/
def reconByte (filter current left up upLeft : Nat) : Option Nat :=
  if filter = 0 then some current
  else if filter = 1 then some ((current + left) % 256)
  else if filter = 2 then some ((current + up) % 256)
  else if filter = 3 then some ((current + (left + up) / 2) % 256)
  else if filter = 4 then
    some ((current + (paethPredictor left up upLeft).toNat) % 256)
  else none

/-- The inner `for x` loop of `unfilterScanlines`, reconstructing one row.
`cur` is the already-reconstructed part of the current row and `prev` the
previous reconstructed row; for row 0 `prev` is empty, so the `getD`
defaults yield 0 exactly as the source's `row > 0` guards (and the
zero-filled `Buffer.alloc`) do. -/
def unfilterRowGo (filter bpp : Nat) (prev : List Nat) :
    List Nat → List Nat → Except PngErr (List Nat)
  | cur, [] => .ok cur
  | cur, cByte :: rest =>
    match reconByte filter cByte
        (if bpp ≤ cur.length then cur.getD (cur.length - bpp) 0 else 0)
        (prev.getD cur.length 0)
        (if bpp ≤ cur.length then prev.getD (cur.length - bpp) 0 else 0) with
    | some v => unfilterRowGo filter bpp prev (cur ++ [v]) rest
    | none => .error .malformedContainer

/-- The outer row loop of `unfilterScanlines`: each row is one selector
byte followed by `stride` filtered bytes (the empty-input case is
unreachable under the length precondition checked by the caller). -/
def unfilterGo (bpp stride : Nat) : List Nat → List Nat → Nat → Except PngErr (List Nat)
  | _, _, 0 => .ok []
  | prev, inflated, hLeft + 1 =>
    match inflated with
    | [] => .error .rangeError
    | f :: rest =>
      match unfilterRowGo f bpp prev [] (rest.take stride) with
      | .error e => .error e
      | .ok rowOut =>
        match unfilterGo bpp stride rowOut (rest.drop stride) hLeft with
        | .error e => .error e
        | .ok restOut => .ok (rowOut ++ restOut)

/-- `unfilterScanlines` (part_005 lines 276–325): length check, then
row-by-row reconstruction. -/
def unfilterScanlines (inflated : List Nat) (width height bytesPerPixel : Nat) :
    Except PngErr (List Nat) :=
  if inflated.length ≠ height * (width * bytesPerPixel + 1) then .error .malformedContainer
  else unfilterGo bytesPerPixel (width * bytesPerPixel) [] inflated height

/-- Modelled from the spec (§4.1): the per-filter predictor value used by
the forward direction of the round-trip property (the encoder is not part
of this repository; the five predictors are those the spec lists). -/
def predictorOf (filter left up upLeft : Nat) : Nat :=
  if filter = 0 then 0
  else if filter = 1 then left
  else if filter = 2 then up
  else if filter = 3 then (left + up) / 2
  else (paethPredictor left up upLeft).toNat

/-- Forward filtering of one sample byte, as the claim describes it:
(byte − predictor) mod 256. -/
def forwardFilterByte (filter orig left up upLeft : Nat) : Nat :=
  (((orig : Int) - predictorOf filter left up upLeft) % 256).toNat

/-- Forward filtering of one row; neighbors come from the raw (unfiltered)
rows, 0 outside the image. -/
def forwardFilterRow (filter bpp : Nat) (prev row : List Nat) : List Nat :=
  (List.range row.length).map fun x =>
    forwardFilterByte filter (row.getD x 0)
      (if bpp ≤ x then row.getD (x - bpp) 0 else 0)
      (prev.getD x 0)
      (if bpp ≤ x then prev.getD (x - bpp) 0 else 0)

/-- Forward-filter a raw sample array row by row, prefixing each filtered
row with its selector byte — the encode direction of the round-trip
claim. -/
def encodeScanlines (bpp stride : Nat) : List Nat → List Nat → List Nat → List Nat
  | _, [], _ => []
  | prev, sel :: sels, rawRest =>
    let row := rawRest.take stride
    (sel :: forwardFilterRow sel bpp prev row) ++
      encodeScanlines bpp stride row sels (rawRest.drop stride)


theorem reconByte_forward (filter orig left up upLeft : Nat)
    (hf : filter ≤ 4) (ho : orig < 256) :
    reconByte filter (forwardFilterByte filter orig left up upLeft) left up upLeft =
      some orig := by
  unfold reconByte forwardFilterByte predictorOf
  split_ifs <;> first | (simp only [Option.some.injEq]; omega) | omega

theorem reconByte_isSome_of_le (filter current left up upLeft : Nat) (hf : filter ≤ 4) :
    ∃ v, reconByte filter current left up upLeft = some v := by
  unfold reconByte
  split_ifs <;> first | exact ⟨_, rfl⟩ | omega

theorem reconByte_none_of_gt (filter current left up upLeft : Nat) (hf : 4 < filter) :
    reconByte filter current left up upLeft = none := by
  unfold reconByte
  split_ifs <;> first | rfl | omega

theorem unfilterRowGo_roundtrip (filter bpp : Nat) (prev row : List Nat)
    (hf : filter ≤ 4) (hbpp : 1 ≤ bpp) (hrow : ∀ b ∈ row, b < 256) :
    ∀ n k, n = row.length - k → k ≤ row.length →
      unfilterRowGo filter bpp prev (row.take k)
        ((List.range' k (row.length - k)).map (fun x =>
          forwardFilterByte filter (row.getD x 0)
            (if bpp ≤ x then row.getD (x - bpp) 0 else 0)
            (prev.getD x 0)
            (if bpp ≤ x then prev.getD (x - bpp) 0 else 0))) = .ok row := by
  intro n
  induction n with
  | zero =>
    intro k hn hk
    have hkl : k = row.length := by omega
    subst hkl
    rw [Nat.sub_self, List.range'_zero, List.map_nil, List.take_length]
    rfl
  | succ m ih =>
    intro k hn hk
    have hklt : k < row.length := by omega
    rw [← hn, List.range'_succ, List.map_cons]
    have hcurlen : (row.take k).length = k := by
      simp [List.length_take, Nat.min_eq_left hk]
    show unfilterRowGo filter bpp prev (row.take k) (_ :: _) = .ok row
    unfold unfilterRowGo
    rw [hcurlen]

    have htake : ∀ j, j < k → (row.take k).getD j 0 = row.getD j 0 := by
      intro j hj
      simp [List.getD, List.getElem?_take, hj]
    have hleft : (if bpp ≤ k then (row.take k).getD (k - bpp) 0 else 0) =
        (if bpp ≤ k then row.getD (k - bpp) 0 else 0) := by
      split_ifs with hb
      · exact htake _ (by omega)
      · rfl
    rw [hleft]
    have horig : row.getD k 0 < 256 := by
      have hget : row.getD k 0 = row[k] := by
        simp [List.getD, List.getElem?_eq_getElem hklt]
      rw [hget]
      exact hrow _ (List.getElem_mem hklt)
    rw [reconByte_forward filter (row.getD k 0) _ _ _ hf horig]
    show unfilterRowGo filter bpp prev (row.take k ++ [row.getD k 0])
        (List.map _ (List.range' (k + 1) m)) = .ok row
    have hsnoc : row.take k ++ [row.getD k 0] = row.take (k + 1) := by
      rw [List.take_succ]
      congr 1
      simp [List.getD, List.getElem?_eq_getElem hklt]
    rw [hsnoc]
    have hm : m = row.length - (k + 1) := by omega
    have hih := ih (k + 1) hm (by omega)
    rw [← hm] at hih
    exact hih


theorem forwardFilterRow_length (filter bpp : Nat) (prev row : List Nat) :
    (forwardFilterRow filter bpp prev row).length = row.length := by
  simp [forwardFilterRow]

theorem unfilterRow_of_encode (filter bpp : Nat) (prev row : List Nat)
    (hf : filter ≤ 4) (hbpp : 1 ≤ bpp) (hrow : ∀ b ∈ row, b < 256) :
    unfilterRowGo filter bpp prev [] (forwardFilterRow filter bpp prev row) = .ok row := by
  have h := unfilterRowGo_roundtrip filter bpp prev row hf hbpp hrow row.length 0
    (by omega) (by omega)
  simpa [forwardFilterRow, List.range_eq_range'] using h

theorem unfilterGo_cons (bpp stride : Nat) (prev : List Nat) (f : Nat)
    (rest : List Nat) (hLeft : Nat) :
    unfilterGo bpp stride prev (f :: rest) (hLeft + 1) =
      match unfilterRowGo f bpp prev [] (rest.take stride) with
      | .error e => .error e
      | .ok rowOut =>
        match unfilterGo bpp stride rowOut (rest.drop stride) hLeft with
        | .error e => .error e
        | .ok restOut => .ok (rowOut ++ restOut) := rfl

theorem unfilterGo_roundtrip (bpp stride : Nat) (hbpp : 1 ≤ bpp) :
    ∀ (sels : List Nat) (raw prev : List Nat),
      raw.length = sels.length * stride →
      (∀ b ∈ raw, b < 256) →
      (∀ sl ∈ sels, sl ≤ 4) →
      unfilterGo bpp stride prev (encodeScanlines bpp stride prev sels raw) sels.length =
        .ok raw := by
  intro sels
  induction sels with
  | nil =>
    intro raw prev hlen _ _
    have hraw : raw = [] := List.eq_nil_of_length_eq_zero (by simpa using hlen)
    subst hraw
    rfl
  | cons sel sels ih =>
    intro raw prev hlen hbytes hsels
    have hstr : stride ≤ raw.length := by
      rw [hlen, List.length_cons]
      exact Nat.le_mul_of_pos_left stride (by omega)
    have hfr : (forwardFilterRow sel bpp prev (raw.take stride)).length = stride := by
      rw [forwardFilterRow_length, List.length_take]
      omega
    have hrow := unfilterRow_of_encode sel bpp prev (raw.take stride)
      (hsels sel (List.mem_cons_self _ _)) hbpp
      (fun b hb => hbytes b (List.mem_of_mem_take hb))
    have hrest := ih (raw.drop stride) (raw.take stride)
      (by rw [List.length_drop, hlen, List.length_cons]; ring_nf; omega)
      (fun b hb => hbytes b (List.mem_of_mem_drop hb))
      (fun sl hs => hsels sl (List.mem_cons_of_mem _ hs))
    show unfilterGo bpp stride prev
        ((sel :: forwardFilterRow sel bpp prev (raw.take stride)) ++
          encodeScanlines bpp stride (raw.take stride) sels (raw.drop stride))
        (sels.length + 1) = .ok raw
    simp only [List.cons_append, unfilterGo_cons, List.take_left' hfr,
      List.drop_left' hfr, hrow, hrest, List.take_append_drop]

theorem encodeScanlines_length (bpp stride : Nat) :
    ∀ (sels : List Nat) (raw prev : List Nat),
      raw.length = sels.length * stride →
      (encodeScanlines bpp stride prev sels raw).length = sels.length * (stride + 1) := by
  intro sels
  induction sels with
  | nil => intro raw prev _; simp [encodeScanlines]
  | cons sel sels ih =>
    intro raw prev h
    have hstr : stride ≤ raw.length := by
      rw [h, List.length_cons]
      exact Nat.le_mul_of_pos_left stride (by omega)
    show ((sel :: forwardFilterRow sel bpp prev (raw.take stride)) ++
        encodeScanlines bpp stride (raw.take stride) sels (raw.drop stride)).length = _
    rw [List.length_append, List.length_cons, forwardFilterRow_length, List.length_take,
      ih (raw.drop stride) (raw.take stride)
        (by rw [List.length_drop, h, List.length_cons]; ring_nf; omega)]
    have hmin : min stride raw.length = stride := by omega
    rw [hmin, List.length_cons]
    ring

theorem unfilterRowGo_ok_of_le (filter bpp : Nat) (prev : List Nat) (hf : filter ≤ 4) :
    ∀ (input cur : List Nat), ∃ out, unfilterRowGo filter bpp prev cur input = .ok out := by
  intro input
  induction input with
  | nil => intro cur; exact ⟨cur, rfl⟩
  | cons cByte rest ih =>
    intro cur
    unfold unfilterRowGo
    obtain ⟨v, hv⟩ := reconByte_isSome_of_le filter cByte
      (if bpp ≤ cur.length then cur.getD (cur.length - bpp) 0 else 0)
      (prev.getD cur.length 0)
      (if bpp ≤ cur.length then prev.getD (cur.length - bpp) 0 else 0) hf
    rw [hv]
    exact ih (cur ++ [v])

theorem unfilterRowGo_err_of_gt (filter bpp : Nat) (prev cur : List Nat)
    (hf : 4 < filter) (b : Nat) (rest : List Nat) :
    unfilterRowGo filter bpp prev cur (b :: rest) = .error .malformedContainer := by
  unfold unfilterRowGo
  rw [reconByte_none_of_gt _ _ _ _ _ hf]

theorem rowsFlatMap_length (stride : Nat) :
    ∀ rows : List (Nat × List Nat), (∀ p ∈ rows, p.2.length = stride) →
      (rows.flatMap fun p => p.1 :: p.2).length = rows.length * (stride + 1) := by
  intro rows
  induction rows with
  | nil => intro _; simp
  | cons p rest ih =>
    intro h
    simp only [List.flatMap_cons, List.length_append, List.length_cons,
      ih (fun q hq => h q (List.mem_cons_of_mem _ hq)), h p (List.mem_cons_self _ _)]
    ring

theorem unfilterGo_err (bpp stride : Nat) (hstride : 0 < stride) :
    ∀ (rows : List (Nat × List Nat)) (prev : List Nat),
      (∀ p ∈ rows, p.2.length = stride) →
      (∃ p ∈ rows, 4 < p.1) →
      unfilterGo bpp stride prev (rows.flatMap fun p => p.1 :: p.2) rows.length =
        .error .malformedContainer := by
  intro rows
  induction rows with
  | nil =>
    intro prev _ hex
    simp at hex
  | cons p rest ih =>
    intro prev hlen hex
    have hl2 : p.2.length = stride := hlen p (List.mem_cons_self _ _)
    by_cases hp : 4 < p.1
    · obtain ⟨b, more, hpp⟩ : ∃ b more, p.2 = b :: more := by
        cases hb2 : p.2 with
        | nil => rw [hb2] at hl2; simp at hl2; omega
        | cons b more => exact ⟨b, more, rfl⟩
      have herr := unfilterRowGo_err_of_gt p.1 bpp prev [] hp b more
      show unfilterGo bpp stride prev
          ((p.1 :: p.2) ++ rest.flatMap (fun q => q.1 :: q.2)) (rest.length + 1) = _
      simp only [List.cons_append, unfilterGo_cons, List.take_left' hl2,
        List.drop_left' hl2]
      simp only [hpp, herr]
    · obtain ⟨out, hout⟩ := unfilterRowGo_ok_of_le p.1 bpp prev (Nat.le_of_not_lt hp) p.2 []
      have hex2 : ∃ q ∈ rest, 4 < q.1 := by
        rcases hex with ⟨q, hq, hq4⟩
        rcases List.mem_cons.mp hq with hq | hq
        · subst hq; exact absurd hq4 hp
        · exact ⟨q, hq, hq4⟩
      have hrest := ih out (fun q hq => hlen q (List.mem_cons_of_mem _ hq)) hex2
      show unfilterGo bpp stride prev
          ((p.1 :: p.2) ++ rest.flatMap (fun q => q.1 :: q.2)) (rest.length + 1) = _
      simp only [List.cons_append, unfilterGo_cons, List.take_left' hl2,
        List.drop_left' hl2, hout, hrest]

/-- C5 counterexample: with width = 0 (stride 0), a selector byte greater
than 4 causes no error — the inner loop never runs, so the selector is
never inspected: `unfilterScanlines [7] 0 1 1 = .ok []`. -/
theorem C5_unknown_filter_cex :
    unfilterScanlines [7] 0 1 1 = .ok [] ∧ 4 < 7 := by
  constructor
  · rfl
  · decide

/-- C5 (amended): scanline reconstruction inverts the five row filters —
for every width, height, bytesPerPixel ≥ 1 and raw byte array of length
width·height·bytesPerPixel, forward-filtering each row with any selector
0..4 (mod-256 arithmetic, out-of-image neighbors 0) and prefixing each row
with its selector byte yields an input that `unfilterScanlines` maps back
to exactly the raw array; and a selector byte greater than 4 causes a
`MalformedContainer` error provided the row has at least one sample byte
(width·bytesPerPixel > 0; with an empty stride the selector byte is never
read, as the counterexample shows). -/
theorem C5_unfilter_roundtrip :
    (∀ (width height bpp : Nat) (raw sels : List Nat),
      1 ≤ bpp →
      raw.length = height * (width * bpp) →
      (∀ b ∈ raw, b < 256) →
      sels.length = height →
      (∀ sl ∈ sels, sl ≤ 4) →
      unfilterScanlines (encodeScanlines bpp (width * bpp) [] sels raw)
        width height bpp = .ok raw) ∧
    (∀ (width height bpp : Nat) (rows : List (Nat × List Nat)),
      rows.length = height →
      (∀ p ∈ rows, p.2.length = width * bpp) →
      0 < width * bpp →
      (∃ p ∈ rows, 4 < p.1) →
      unfilterScanlines (rows.flatMap fun p => p.1 :: p.2) width height bpp =
        .error .malformedContainer) := by
  constructor
  · intro width height bpp raw sels hbpp hlen hbytes hslen hsels
    have henc : (encodeScanlines bpp (width * bpp) [] sels raw).length =
        height * (width * bpp + 1) := by
      rw [encodeScanlines_length bpp (width * bpp) sels raw [] (by rw [hlen, hslen]), hslen]
    unfold unfilterScanlines
    rw [if_neg (by omega)]
    rw [← hslen]
    exact unfilterGo_roundtrip bpp (width * bpp) hbpp sels raw []
      (by rw [hlen, hslen]) hbytes hsels
  · intro width height bpp rows hrlen hlens hstride hex
    have hfm := rowsFlatMap_length (width * bpp) rows hlens
    unfold unfilterScanlines
    rw [if_neg (by simp [hfm, hrlen])]
    rw [← hrlen]
    exact unfilterGo_err bpp (width * bpp) hstride rows [] hlens hex

/-- Witness for C5 (amended): a 1×1 single-byte image under filter 1. -/
theorem C5_unfilter_roundtrip_witness :
    unfilterScanlines (encodeScanlines 1 (1 * 1) [] [1] [42]) 1 1 1 = .ok [42] :=
  C5_unfilter_roundtrip.1 1 1 1 [42] [1] (by decide) (by decide)
    (by decide) (by decide) (by decide)


/-- The fixed 8-byte container signature (`PNG_SIGNATURE`). -/
def PNG_SIGNATURE : List Nat := [0x89, 0x50, 0x4e, 0x47, 0x0d, 0x0a, 0x1a, 0x0a]

/-- Big-endian 32-bit value of the first four entries of a byte list
(`Buffer.readUInt32BE` at an in-bounds offset). -/
def beVal (bytes : List Nat) : Nat :=
  ((bytes.getD 0 0 * 256 + bytes.getD 1 0) * 256 + bytes.getD 2 0) * 256 + bytes.getD 3 0

/-- `buffer.toString('ascii', from, to)`: Node's ascii decoding masks each
byte to 7 bits. -/
def asciiOf (bytes : List Nat) : List Nat := bytes.map (· % 128)

def tagIHDR : List Nat := strBytes "IHDR"

def tagIDAT : List Nat := strBytes "IDAT"

def tagIEND : List Nat := strBytes "IEND"

/-- The mutable state of `parsePng`'s chunk-scanning loop. -/
structure ScanState where
  width : Nat
  height : Nat
  bitDepth : Nat
  colorType : Nat
  interlace : Nat
  idat : List (List Nat)
deriving DecidableEq, Repr

def initScan : ScanState := ⟨0, 0, 0, 0, 0, []⟩

/-- `readUInt32BE(data, off)`: `Buffer.readUInt32BE` throws a range error
past the end of the buffer. -/
def readUInt32BE (data : List Nat) (off : Nat) : Except PngErr Nat :=
  if off + 4 ≤ data.length then .ok (beVal (data.drop off)) else .error .rangeError

/-- `readByte` (part_005 lines 253–259): error on an out-of-range index. -/
def readByte (data : List Nat) (off : Nat) : Except PngErr Nat :=
  match data[off]? with
  | some v => .ok v
  | none => .error .rangeError

/-- The type dispatch of the scan loop body: IHDR fills the header fields,
IDAT accumulates its payload, any other type is skipped without effect
(IEND is handled by the loop itself, which stops there). -/
def scanStep (st : ScanState) (ty : List Nat) (data : List Nat) : Except PngErr ScanState :=
  if ty = tagIHDR then
    match readUInt32BE data 0 with
    | .error e => .error e
    | .ok w =>
      match readUInt32BE data 4 with
      | .error e => .error e
      | .ok h =>
        match readByte data 8 with
        | .error e => .error e
        | .ok bd =>
          match readByte data 9 with
          | .error e => .error e
          | .ok ct =>
            match readByte data 12 with
            | .error e => .error e
            | .ok il =>
              .ok ⟨w, h, bd, ct, il, st.idat⟩
  else if ty = tagIDAT then .ok { st with idat := st.idat ++ [data] }
  else .ok st

/-- The chunk-scanning while loop of `parsePng` (part_005 lines 340–365),
on the bytes after the 8-byte signature: while at least 8 bytes remain,
read a 4-byte big-endian length and 4-byte type, fail if the declared data
plus the 4 checksum bytes run past the end, stop (state unchanged) at the
first IEND, otherwise dispatch and continue after the checksum. -/
def scanChunks (st : ScanState) (bytes : List Nat) : Except PngErr ScanState :=
  if _h8 : bytes.length < 8 then .ok st
  else if _hfit : bytes.length < 8 + beVal (bytes.take 4) + 4 then
    .error .malformedContainer
  else if asciiOf ((bytes.drop 4).take 4) = tagIEND then .ok st
  else
    match scanStep st (asciiOf ((bytes.drop 4).take 4))
        ((bytes.drop 8).take (beVal (bytes.take 4))) with
    | .error e => .error e
    | .ok st2 => scanChunks st2 (bytes.drop (8 + beVal (bytes.take 4) + 4))
termination_by bytes.length
decreasing_by simp only [List.length_drop]; omega

/-- The sequence of chunk type tags the scan loop visits, mirroring
`scanChunks`' traversal (stopping at the first IEND, at the end of the
buffer, or at an overrunning chunk). -/
def chunkTypesOf (bytes : List Nat) : List (List Nat) :=
  if _h8 : bytes.length < 8 then []
  else if _hfit : bytes.length < 8 + beVal (bytes.take 4) + 4 then []
  else if asciiOf ((bytes.drop 4).take 4) = tagIEND then [tagIEND]
  else asciiOf ((bytes.drop 4).take 4) ::
    chunkTypesOf (bytes.drop (8 + beVal (bytes.take 4) + 4))
termination_by bytes.length
decreasing_by simp only [List.length_drop]; omega

/-- `chunkBy` (part_005 lines 459–465). With `size = 0` the source's loop
index would never advance; it is only ever called with positive sizes, and
the model returns `[]` there. -/
def chunkBy : List α → Nat → List (List α)
  | _, 0 => []
  | [], _ + 1 => []
  | x :: xs, s + 1 => (x :: xs).take (s + 1) :: chunkBy ((x :: xs).drop (s + 1)) (s + 1)
termination_by l _ => l.length
decreasing_by simp only [List.length_drop, List.length_cons]; omega

/-- The result of `parsePng`: dimensions, bit depth, the re-deflated RGB
plane, and the optional re-deflated alpha plane. -/
structure ParsedPng where
  width : Nat
  height : Nat
  bitDepth : Nat
  rgbDeflated : List Nat
  alphaDeflated : Option (List Nat)
deriving DecidableEq, Repr

/-- Everything `parsePng` does after the chunk scan (part_005 lines
367–457): mandatory-chunk check, bit depth / interlace / color type
checks, inflate, scanline reconstruction, and per-color-type plane
conversion followed by re-deflation. The source's per-pixel loops index
`raw` only in bounds (its length is width·height·bytesPerPixel), so the
conversions are expressed with `chunkBy`/`flatMap` over whole pixels. -/
def parsePngBody (inflate : List Nat → Except PngErr (List Nat))
    (deflate : List Nat → List Nat) (st : ScanState) : Except PngErr ParsedPng :=
  if st.width = 0 ∨ st.height = 0 ∨ st.idat = [] then .error .malformedContainer
  else if st.bitDepth ≠ 8 then .error .unsupportedFormat
  else if st.interlace ≠ 0 then .error .unsupportedFormat
  else if st.colorType ≠ 0 ∧ st.colorType ≠ 2 ∧ st.colorType ≠ 4 ∧ st.colorType ≠ 6 then
    .error .unsupportedFormat
  else
    match inflate st.idat.flatten with
    | .error e => .error e
    | .ok inflated =>
      match unfilterScanlines inflated st.width st.height
          (if st.colorType = 6 then 4 else if st.colorType = 4 then 2
            else if st.colorType = 2 then 3 else 1) with
      | .error e => .error e
      | .ok raw =>
        if st.colorType = 2 then
          .ok ⟨st.width, st.height, st.bitDepth, deflate raw, none⟩
        else if st.colorType = 0 then
          .ok ⟨st.width, st.height, st.bitDepth,
            deflate (raw.flatMap fun g => [g, g, g]), none⟩
        else if st.colorType = 4 then
          .ok ⟨st.width, st.height, st.bitDepth,
            deflate ((chunkBy raw 2).flatMap fun px =>
              [px.getD 0 0, px.getD 0 0, px.getD 0 0]),
            some (deflate ((chunkBy raw 2).map fun px => px.getD 1 0))⟩
        else
          .ok ⟨st.width, st.height, st.bitDepth,
            deflate ((chunkBy raw 4).flatMap fun px =>
              [px.getD 0 0, px.getD 1 0, px.getD 2 0]),
            some (deflate ((chunkBy raw 4).map fun px => px.getD 3 0))⟩

/-- `parsePng` (part_005 lines 327–457), with zlib's `inflateSync` and
`deflateSync` — external collaborators — taken as parameters: signature
check, chunk scan, then `parsePngBody`. -/
def parsePng (inflate : List Nat → Except PngErr (List Nat))
    (deflate : List Nat → List Nat) (buffer : List Nat) : Except PngErr ParsedPng :=
  if buffer.length < 8 ∨ buffer.take 8 ≠ PNG_SIGNATURE then .error .malformedContainer
  else
    match scanChunks initScan (buffer.drop 8) with
    | .error e => .error e
    | .ok st => parsePngBody inflate deflate st


/-- A container chunk as laid out on disk: 4-byte big-endian payload
length, 4-byte type tag, payload, 4 checksum bytes (the scan never
verifies the checksum). -/
structure RawChunk where
  ty : List Nat
  payload : List Nat
  crc : List Nat
deriving DecidableEq, Repr

/-- 4-byte big-endian encoding of a 32-bit value. -/
def be4 (n : Nat) : List Nat :=
  [n / 16777216 % 256, n / 65536 % 256, n / 256 % 256, n % 256]

def serializeChunk (c : RawChunk) : List Nat :=
  be4 c.payload.length ++ c.ty ++ c.payload ++ c.crc

def serializeChunks (cs : List RawChunk) : List Nat :=
  (cs.map serializeChunk).flatten

/-- Well-formed chunk: 4-byte tag and checksum, payload length encodable
in 32 bits. -/
def wfChunk (c : RawChunk) : Prop :=
  c.ty.length = 4 ∧ c.crc.length = 4 ∧ c.payload.length < 4294967296

instance (c : RawChunk) : Decidable (wfChunk c) := by
  unfold wfChunk; infer_instance

theorem be4_length (n : Nat) : (be4 n).length = 4 := rfl

theorem beVal_be4 (n : Nat) (h : n < 4294967296) : beVal (be4 n) = n := by
  simp only [beVal, be4, List.getD_cons_zero, List.getD_cons_succ]
  omega

theorem scanChunks_nil (st : ScanState) : scanChunks st [] = .ok st := by
  unfold scanChunks
  simp

theorem chunkTypesOf_nil : chunkTypesOf [] = [] := by
  unfold chunkTypesOf
  simp

theorem scanChunks_cons (st : ScanState) (c : RawChunk) (rest : List Nat)
    (hwf : wfChunk c) :
    scanChunks st (serializeChunk c ++ rest) =
      if asciiOf c.ty = tagIEND then .ok st
      else
        match scanStep st (asciiOf c.ty) c.payload with
        | .error e => .error e
        | .ok st2 => scanChunks st2 rest := by
  obtain ⟨hty, hcrc, hlen⟩ := hwf
  have hpre8 : (be4 c.payload.length ++ c.ty).length = 8 := by
    rw [List.length_append, be4_length, hty]
  have hlenS : (serializeChunk c ++ rest).length =
      12 + c.payload.length + rest.length := by
    simp only [serializeChunk, be4, List.length_append, List.length_cons,
      List.length_nil, hty, hcrc]
    omega
  have h1 : ¬ ((serializeChunk c ++ rest).length < 8) := by omega
  have htk : (serializeChunk c ++ rest).take 4 = be4 c.payload.length := by
    unfold serializeChunk
    simp only [List.append_assoc]
    exact List.take_left' (be4_length _)
  have h2 : ¬ ((serializeChunk c ++ rest).length <
      8 + beVal ((serializeChunk c ++ rest).take 4) + 4) := by
    rw [htk, beVal_be4 _ hlen]
    omega
  have hdrop4 : ((serializeChunk c ++ rest).drop 4).take 4 = c.ty := by
    unfold serializeChunk
    simp only [List.append_assoc]
    rw [List.drop_left' (be4_length _)]
    exact List.take_left' hty
  have hdata : ((serializeChunk c ++ rest).drop 8).take
      (beVal ((serializeChunk c ++ rest).take 4)) = c.payload := by
    rw [htk, beVal_be4 _ hlen]
    unfold serializeChunk
    simp only [List.append_assoc]
    rw [← List.append_assoc, List.drop_left' hpre8]
    exact List.take_left' rfl
  have hdropAll : (serializeChunk c ++ rest).drop
      (8 + beVal ((serializeChunk c ++ rest).take 4) + 4) = rest := by
    rw [htk, beVal_be4 _ hlen]
    unfold serializeChunk
    simp only [List.append_assoc]
    rw [← List.append_assoc, ← List.append_assoc, ← List.append_assoc]
    rw [show 8 + c.payload.length + 4 =
        (be4 c.payload.length ++ c.ty ++ c.payload ++ c.crc).length by
      simp only [List.length_append, be4_length, hty, hcrc]
      try omega]
    exact List.drop_left _ _
  conv_lhs => rw [scanChunks.eq_def]
  rw [dif_neg h1, dif_neg h2, hdrop4, hdata, hdropAll]

theorem chunkTypesOf_cons (c : RawChunk) (rest : List Nat) (hwf : wfChunk c) :
    chunkTypesOf (serializeChunk c ++ rest) =
      if asciiOf c.ty = tagIEND then [tagIEND]
      else asciiOf c.ty :: chunkTypesOf rest := by
  obtain ⟨hty, hcrc, hlen⟩ := hwf
  have hpre8 : (be4 c.payload.length ++ c.ty).length = 8 := by
    rw [List.length_append, be4_length, hty]
  have hlenS : (serializeChunk c ++ rest).length =
      12 + c.payload.length + rest.length := by
    simp only [serializeChunk, be4, List.length_append, List.length_cons,
      List.length_nil, hty, hcrc]
    omega
  have h1 : ¬ ((serializeChunk c ++ rest).length < 8) := by omega
  have htk : (serializeChunk c ++ rest).take 4 = be4 c.payload.length := by
    unfold serializeChunk
    simp only [List.append_assoc]
    exact List.take_left' (be4_length _)
  have h2 : ¬ ((serializeChunk c ++ rest).length <
      8 + beVal ((serializeChunk c ++ rest).take 4) + 4) := by
    rw [htk, beVal_be4 _ hlen]
    omega
  have hdrop4 : ((serializeChunk c ++ rest).drop 4).take 4 = c.ty := by
    unfold serializeChunk
    simp only [List.append_assoc]
    rw [List.drop_left' (be4_length _)]
    exact List.take_left' hty
  have hdata : ((serializeChunk c ++ rest).drop 8).take
      (beVal ((serializeChunk c ++ rest).take 4)) = c.payload := by
    rw [htk, beVal_be4 _ hlen]
    unfold serializeChunk
    simp only [List.append_assoc]
    rw [← List.append_assoc, List.drop_left' hpre8]
    exact List.take_left' rfl
  have hdropAll : (serializeChunk c ++ rest).drop
      (8 + beVal ((serializeChunk c ++ rest).take 4) + 4) = rest := by
    rw [htk, beVal_be4 _ hlen]
    unfold serializeChunk
    simp only [List.append_assoc]
    rw [← List.append_assoc, ← List.append_assoc, ← List.append_assoc]
    rw [show 8 + c.payload.length + 4 =
        (be4 c.payload.length ++ c.ty ++ c.payload ++ c.crc).length by
      simp only [List.length_append, be4_length, hty, hcrc]
      try omega]
    exact List.drop_left _ _
  conv_lhs => rw [chunkTypesOf.eq_def]
  rw [dif_neg h1, dif_neg h2, hdrop4, hdropAll]

theorem readUInt32BE_err {d : List Nat} {o : Nat} {e : PngErr}
    (h : readUInt32BE d o = .error e) : e = .rangeError := by
  unfold readUInt32BE at h
  split_ifs at h
  all_goals
    first
    | exact h.symm
    | exact (Except.error.inj h).symm
    | simp at h

theorem readByte_err {d : List Nat} {o : Nat} {e : PngErr}
    (h : readByte d o = .error e) : e = .rangeError := by
  unfold readByte at h
  cases hd : d[o]? with
  | some v => rw [hd] at h; simp at h
  | none => rw [hd] at h; exact (Except.error.inj h).symm

theorem scanStep_width (st : ScanState) (ty data : List Nat) (h : ty ≠ tagIHDR) :
    ∃ st2, scanStep st ty data = .ok st2 ∧ st2.width = st.width := by
  unfold scanStep
  rw [if_neg h]
  by_cases hd : ty = tagIDAT
  · rw [if_pos hd]; exact ⟨_, rfl, rfl⟩
  · rw [if_neg hd]; exact ⟨st, rfl, rfl⟩

theorem scanStep_idat (st : ScanState) (ty data : List Nat) (h : ty ≠ tagIDAT) :
    scanStep st ty data = .error .rangeError ∨
    ∃ st2, scanStep st ty data = .ok st2 ∧ st2.idat = st.idat := by
  unfold scanStep
  by_cases hh : ty = tagIHDR
  · rw [if_pos hh]
    cases h0 : readUInt32BE data 0 with
    | error e => obtain rfl := readUInt32BE_err h0; exact Or.inl rfl
    | ok w =>
      cases h1 : readUInt32BE data 4 with
      | error e => obtain rfl := readUInt32BE_err h1; exact Or.inl rfl
      | ok hv =>
        cases h2 : readByte data 8 with
        | error e => obtain rfl := readByte_err h2; exact Or.inl rfl
        | ok bd =>
          cases h3 : readByte data 9 with
          | error e => obtain rfl := readByte_err h3; exact Or.inl rfl
          | ok ct =>
            cases h4 : readByte data 12 with
            | error e => obtain rfl := readByte_err h4; exact Or.inl rfl
            | ok il => exact Or.inr ⟨_, rfl, rfl⟩
  · rw [if_neg hh, if_neg h]
    exact Or.inr ⟨st, rfl, rfl⟩

theorem scanChunks_stop8 (st : ScanState) (bytes : List Nat) (h : bytes.length < 8) :
    scanChunks st bytes = .ok st := by
  rw [scanChunks.eq_def, dif_pos h]

theorem scanChunks_no_ihdr :
    ∀ (n : Nat) (bytes : List Nat), bytes.length ≤ n → ∀ (st : ScanState),
      tagIHDR ∉ chunkTypesOf bytes → st.width = 0 →
      scanChunks st bytes = .error .malformedContainer ∨
      ∃ st2, scanChunks st bytes = .ok st2 ∧ st2.width = 0 := by
  intro n
  induction n with
  | zero =>
    intro bytes hb st _ hw
    exact Or.inr ⟨st, scanChunks_stop8 st bytes (by omega), hw⟩
  | succ m ih =>
    intro bytes hb st hno hw
    by_cases h8 : bytes.length < 8
    · exact Or.inr ⟨st, scanChunks_stop8 st bytes h8, hw⟩
    · by_cases hfit : bytes.length < 8 + beVal (bytes.take 4) + 4
      · left
        rw [scanChunks.eq_def, dif_neg h8, dif_pos hfit]
      · by_cases hend : asciiOf ((bytes.drop 4).take 4) = tagIEND
        · refine Or.inr ⟨st, ?_, hw⟩
          rw [scanChunks.eq_def, dif_neg h8, dif_neg hfit, if_pos hend]
        · have hty : chunkTypesOf bytes =
              asciiOf ((bytes.drop 4).take 4) ::
                chunkTypesOf (bytes.drop (8 + beVal (bytes.take 4) + 4)) := by
            rw [chunkTypesOf.eq_def, dif_neg h8, dif_neg hfit, if_neg hend]
          rw [hty] at hno
          have htyne : asciiOf ((bytes.drop 4).take 4) ≠ tagIHDR :=
            fun he => hno (he ▸ List.mem_cons_self _ _)
          obtain ⟨st2, hst2, hw2⟩ :=
            scanStep_width st _ ((bytes.drop 8).take (beVal (bytes.take 4))) htyne
          have heq : scanChunks st bytes =
              scanChunks st2 (bytes.drop (8 + beVal (bytes.take 4) + 4)) := by
            rw [scanChunks.eq_def, dif_neg h8, dif_neg hfit, if_neg hend, hst2]
          rw [heq]
          exact ih _ (by simp only [List.length_drop]; omega) st2
            (fun hm => hno (List.mem_cons_of_mem _ hm)) (hw2.trans hw)

theorem scanChunks_no_idat :
    ∀ (n : Nat) (bytes : List Nat), bytes.length ≤ n → ∀ (st : ScanState),
      tagIDAT ∉ chunkTypesOf bytes → st.idat = [] →
      scanChunks st bytes = .error .malformedContainer ∨
      scanChunks st bytes = .error .rangeError ∨
      ∃ st2, scanChunks st bytes = .ok st2 ∧ st2.idat = [] := by
  intro n
  induction n with
  | zero =>
    intro bytes hb st _ hi
    exact Or.inr (Or.inr ⟨st, scanChunks_stop8 st bytes (by omega), hi⟩)
  | succ m ih =>
    intro bytes hb st hno hi
    by_cases h8 : bytes.length < 8
    · exact Or.inr (Or.inr ⟨st, scanChunks_stop8 st bytes h8, hi⟩)
    · by_cases hfit : bytes.length < 8 + beVal (bytes.take 4) + 4
      · left
        rw [scanChunks.eq_def, dif_neg h8, dif_pos hfit]
      · by_cases hend : asciiOf ((bytes.drop 4).take 4) = tagIEND
        · refine Or.inr (Or.inr ⟨st, ?_, hi⟩)
          rw [scanChunks.eq_def, dif_neg h8, dif_neg hfit, if_pos hend]
        · have hty : chunkTypesOf bytes =
              asciiOf ((bytes.drop 4).take 4) ::
                chunkTypesOf (bytes.drop (8 + beVal (bytes.take 4) + 4)) := by
            rw [chunkTypesOf.eq_def, dif_neg h8, dif_neg hfit, if_neg hend]
          rw [hty] at hno
          have htyne : asciiOf ((bytes.drop 4).take 4) ≠ tagIDAT :=
            fun he => hno (he ▸ List.mem_cons_self _ _)
          rcases scanStep_idat st _ ((bytes.drop 8).take (beVal (bytes.take 4))) htyne with
            herr | ⟨st2, hst2, hi2⟩
          · refine Or.inr (Or.inl ?_)
            rw [scanChunks.eq_def, dif_neg h8, dif_neg hfit, if_neg hend, herr]
          · have heq : scanChunks st bytes =
                scanChunks st2 (bytes.drop (8 + beVal (bytes.take 4) + 4)) := by
              rw [scanChunks.eq_def, dif_neg h8, dif_neg hfit, if_neg hend, hst2]
            rw [heq]
            exact ih _ (by simp only [List.length_drop]; omega) st2
              (fun hm => hno (List.mem_cons_of_mem _ hm)) (hi2.trans hi)

/-- C4 (amended): whenever the chunk scan finds no header chunk, or no
data chunk, `parsePng` fails — with a `MalformedContainer` error in the
no-header case, and with `MalformedContainer` (or an out-of-range read
error, when a truncated header chunk is present) in the no-data case; it
never returns a decoded image for such inputs. Absence of the terminator
chunk alone does NOT cause failure (see the counterexample). -/
theorem C4_missing_chunks (inflate : List Nat → Except PngErr (List Nat))
    (deflate : List Nat → List Nat) (buf : List Nat) :
    (tagIHDR ∉ chunkTypesOf (buf.drop 8) →
      parsePng inflate deflate buf = .error .malformedContainer) ∧
    (tagIDAT ∉ chunkTypesOf (buf.drop 8) →
      ∃ e, parsePng inflate deflate buf = .error e ∧
        (e = .malformedContainer ∨ e = .rangeError)) := by
  constructor
  · intro hno
    unfold parsePng
    by_cases hsig : buf.length < 8 ∨ buf.take 8 ≠ PNG_SIGNATURE
    · rw [if_pos hsig]
    · rw [if_neg hsig]
      rcases scanChunks_no_ihdr (buf.drop 8).length (buf.drop 8) le_rfl initScan hno rfl
        with h | ⟨st2, hok, hw⟩
      · rw [h]
      · rw [hok]
        show parsePngBody inflate deflate st2 = .error .malformedContainer
        unfold parsePngBody
        rw [if_pos (Or.inl hw)]
  · intro hno
    unfold parsePng
    by_cases hsig : buf.length < 8 ∨ buf.take 8 ≠ PNG_SIGNATURE
    · rw [if_pos hsig]
      exact ⟨.malformedContainer, rfl, Or.inl rfl⟩
    · rw [if_neg hsig]
      rcases scanChunks_no_idat (buf.drop 8).length (buf.drop 8) le_rfl initScan hno rfl
        with h | h | ⟨st2, hok, hi⟩
      · rw [h]
        exact ⟨.malformedContainer, rfl, Or.inl rfl⟩
      · rw [h]
        exact ⟨.rangeError, rfl, Or.inr rfl⟩
      · rw [hok]
        show ∃ e, parsePngBody inflate deflate st2 = .error e ∧
          (e = .malformedContainer ∨ e = .rangeError)
        unfold parsePngBody
        rw [if_pos (Or.inr (Or.inr hi))]
        exact ⟨.malformedContainer, rfl, Or.inl rfl⟩

/-- Witness for C4 (amended) on the empty input. -/
theorem C4_missing_chunks_witness :
    tagIHDR ∉ chunkTypesOf (([] : List Nat).drop 8) ∧
    parsePng inflateStored (fun bs => bs) [] = .error .malformedContainer :=
  ⟨by rw [List.drop_nil, chunkTypesOf_nil]; simp,
    (C4_missing_chunks inflateStored (fun bs => bs) []).1
      (by rw [List.drop_nil, chunkTypesOf_nil]; simp)⟩


/-- Adler-32 running update (RFC 1950): s1, s2 accumulators mod 65521. -/
def adlerStep (p : Nat × Nat) (b : Nat) : Nat × Nat :=
  ((p.1 + b) % 65521, (p.2 + (p.1 + b) % 65521) % 65521)

def adler32 (data : List Nat) : Nat :=
  (data.foldl adlerStep (1, 0)).2 * 65536 + (data.foldl adlerStep (1, 0)).1

/-- Modelled from the spec: the Raster Decoder decompresses the
concatenated data-chunk payloads "with a standard deflate algorithm"
(zlib's `inflateSync`, an external collaborator not part of this
repository). This model implements RFC 1950/1951 inflate restricted to
zlib streams consisting of a single final stored (uncompressed) deflate
block — the stream shape the counterexample uses — checking the zlib
header, the stored-block length fields, and the Adler-32 checksum; real
`inflateSync` behaves identically on such streams. -/
def inflateStored (input : List Nat) : Except PngErr (List Nat) :=
  match input with
  | cmf :: flg :: hd :: lo :: hi :: nlo :: nhi :: rest =>
    if cmf % 16 ≠ 8 then .error .zlibError
    else if (cmf * 256 + flg) % 31 ≠ 0 then .error .zlibError
    else if flg / 32 % 2 = 1 then .error .zlibError
    else if hd ≠ 1 then .error .zlibError
    else if nlo + 256 * nhi ≠ 65535 - (lo + 256 * hi) then .error .zlibError
    else if rest.length < lo + 256 * hi + 4 then .error .zlibError
    else if beVal ((rest.drop (lo + 256 * hi)).take 4) = adler32 (rest.take (lo + 256 * hi))
      then .ok (rest.take (lo + 256 * hi))
    else .error .zlibError
  | _ => .error .zlibError

/-- A 13-byte IHDR chunk for a 1×1, 8-bit, grayscale, non-interlaced
image (checksum bytes irrelevant, never verified). -/
def cexIhdr : RawChunk := ⟨tagIHDR, [0, 0, 0, 1, 0, 0, 0, 1, 8, 0, 0, 0, 0], [0, 0, 0, 0]⟩

/-- A zlib stream holding one final stored block with the two bytes
[0, 42]: filter selector 0, then the single gray sample 42. -/
def cexZlib : List Nat :=
  [0x78, 0x01, 0x01, 0x02, 0x00, 0xFD, 0xFF, 0x00, 0x2A, 0x00, 0x2C, 0x00, 0x2B]

def cexIdat : RawChunk := ⟨tagIDAT, cexZlib, [0, 0, 0, 0]⟩

/-- A container with signature, header chunk and data chunk but NO
terminator chunk. -/
def cexNoIend : List Nat :=
  PNG_SIGNATURE ++ serializeChunk cexIhdr ++ serializeChunk cexIdat

/-- C4 counterexample: the scan never checks for the terminator chunk —
`cexNoIend` has no IEND chunk, yet `parsePng` returns a decoded image
(under real zlib semantics, here `inflateStored`). -/
theorem C4_missing_iend_cex :
    tagIEND ∉ chunkTypesOf (cexNoIend.drop 8) ∧
    parsePng inflateStored (fun bs => bs) cexNoIend =
      .ok ⟨1, 1, 8, [42, 42, 42], none⟩ := by
  have hdrop : cexNoIend.drop 8 = serializeChunk cexIhdr ++ serializeChunk cexIdat := by
    unfold cexNoIend
    rw [List.append_assoc]
    exact List.drop_left' rfl
  have hw1 : wfChunk cexIhdr := by decide
  have hw2 : wfChunk cexIdat := by decide
  have hstep1 : scanStep initScan (asciiOf cexIhdr.ty) cexIhdr.payload =
      .ok ⟨1, 1, 8, 0, 0, []⟩ := by rfl
  have hstep2 : scanStep ⟨1, 1, 8, 0, 0, []⟩ (asciiOf cexIdat.ty) cexIdat.payload =
      .ok ⟨1, 1, 8, 0, 0, [cexZlib]⟩ := by rfl
  have hser2 : serializeChunk cexIdat = serializeChunk cexIdat ++ [] :=
    (List.append_nil _).symm
  have hscan : scanChunks initScan (cexNoIend.drop 8) = .ok ⟨1, 1, 8, 0, 0, [cexZlib]⟩ := by
    rw [hdrop, scanChunks_cons _ _ _ hw1, if_neg (by decide), hstep1]
    show scanChunks ⟨1, 1, 8, 0, 0, []⟩ (serializeChunk cexIdat) = _
    rw [hser2, scanChunks_cons _ _ _ hw2, if_neg (by decide), hstep2]
    exact scanChunks_nil _
  constructor
  · rw [hdrop, chunkTypesOf_cons _ _ hw1, if_neg (by decide)]
    rw [hser2, chunkTypesOf_cons _ _ hw2, if_neg (by decide), chunkTypesOf_nil]
    decide
  · unfold parsePng
    rw [if_neg (by decide), hscan]
    show parsePngBody inflateStored (fun bs => bs) ⟨1, 1, 8, 0, 0, [cexZlib]⟩ =
      .ok ⟨1, 1, 8, [42, 42, 42], none⟩
    rfl


theorem scanStep_unknown (st : ScanState) (ty data : List Nat)
    (h1 : ty ≠ tagIHDR) (h2 : ty ≠ tagIDAT) : scanStep st ty data = .ok st := by
  unfold scanStep
  rw [if_neg h1, if_neg h2]

theorem scanChunks_congr_tail :
    ∀ (pre : List RawChunk), (∀ c ∈ pre, wfChunk c) →
      ∀ (r1 r2 : List Nat), (∀ st : ScanState, scanChunks st r1 = scanChunks st r2) →
      ∀ st : ScanState,
        scanChunks st (serializeChunks pre ++ r1) =
          scanChunks st (serializeChunks pre ++ r2) := by
  intro pre
  induction pre with
  | nil =>
    intro _ r1 r2 h st
    simpa [serializeChunks] using h st
  | cons c cs ih =>
    intro hwf r1 r2 h st
    have hs1 : serializeChunks (c :: cs) ++ r1 =
        serializeChunk c ++ (serializeChunks cs ++ r1) := by
      simp [serializeChunks, List.append_assoc]
    have hs2 : serializeChunks (c :: cs) ++ r2 =
        serializeChunk c ++ (serializeChunks cs ++ r2) := by
      simp [serializeChunks, List.append_assoc]
    rw [hs1, hs2, scanChunks_cons st c _ (hwf c (List.mem_cons_self _ _)),
      scanChunks_cons st c _ (hwf c (List.mem_cons_self _ _))]
    by_cases hend : asciiOf c.ty = tagIEND
    · rw [if_pos hend, if_pos hend]
    · rw [if_neg hend, if_neg hend]
      cases scanStep st (asciiOf c.ty) c.payload with
      | error e => rfl
      | ok st2 => exact ih (fun q hq => hwf q (List.mem_cons_of_mem _ hq)) r1 r2 h st2

theorem parsePng_sig (inflate : List Nat → Except PngErr (List Nat))
    (deflate : List Nat → List Nat) (tail : List Nat) :
    parsePng inflate deflate (PNG_SIGNATURE ++ tail) =
      match scanChunks initScan tail with
      | .error e => .error e
      | .ok st => parsePngBody inflate deflate st := by
  unfold parsePng
  have hsig : ¬ ((PNG_SIGNATURE ++ tail).length < 8 ∨
      (PNG_SIGNATURE ++ tail).take 8 ≠ PNG_SIGNATURE) := by
    push_neg
    constructor
    · simp [PNG_SIGNATURE]
    · exact List.take_left' rfl
  rw [if_neg hsig, List.drop_left' (show PNG_SIGNATURE.length = 8 from rfl)]

/-- C10: the chunk scan skips every chunk whose type tag is not IHDR,
IDAT or IEND — removing such a chunk (payload and all) does not change
`parsePng`'s result — and it stops at the first IEND chunk, so inputs
that differ only in the bytes after the first IEND chunk decode
identically. -/
theorem C10_unknown_chunks_and_iend (inflate : List Nat → Except PngErr (List Nat))
    (deflate : List Nat → List Nat) :
    (∀ (pre post : List RawChunk) (u : RawChunk),
      (∀ c ∈ pre, wfChunk c) → wfChunk u →
      asciiOf u.ty ≠ tagIHDR → asciiOf u.ty ≠ tagIDAT → asciiOf u.ty ≠ tagIEND →
      parsePng inflate deflate (PNG_SIGNATURE ++ serializeChunks (pre ++ u :: post)) =
        parsePng inflate deflate (PNG_SIGNATURE ++ serializeChunks (pre ++ post))) ∧
    (∀ (chunks : List RawChunk) (iendC : RawChunk) (t1 t2 : List Nat),
      (∀ c ∈ chunks, wfChunk c) → wfChunk iendC → asciiOf iendC.ty = tagIEND →
      parsePng inflate deflate
          (PNG_SIGNATURE ++ (serializeChunks chunks ++ (serializeChunk iendC ++ t1))) =
        parsePng inflate deflate
          (PNG_SIGNATURE ++ (serializeChunks chunks ++ (serializeChunk iendC ++ t2)))) := by
  constructor
  · intro pre post u hwfp hwfu hu1 hu2 hu3
    rw [parsePng_sig, parsePng_sig]
    have hscan : scanChunks initScan (serializeChunks (pre ++ u :: post)) =
        scanChunks initScan (serializeChunks (pre ++ post)) := by
      have h1 : serializeChunks (pre ++ u :: post) =
          serializeChunks pre ++ (serializeChunk u ++ serializeChunks post) := by
        simp [serializeChunks, List.append_assoc]
      have h2 : serializeChunks (pre ++ post) =
          serializeChunks pre ++ serializeChunks post := by
        simp [serializeChunks]
      rw [h1, h2]
      refine scanChunks_congr_tail pre hwfp _ _ (fun st => ?_) initScan
      rw [scanChunks_cons st u _ hwfu, if_neg hu3,
        scanStep_unknown st (asciiOf u.ty) u.payload hu1 hu2]
    rw [hscan]
  · intro chunks iendC t1 t2 hwfc hwfe hiend
    rw [parsePng_sig, parsePng_sig]
    have hscan : scanChunks initScan (serializeChunks chunks ++ (serializeChunk iendC ++ t1)) =
        scanChunks initScan (serializeChunks chunks ++ (serializeChunk iendC ++ t2)) := by
      refine scanChunks_congr_tail chunks hwfc _ _ (fun st => ?_) initScan
      rw [scanChunks_cons st iendC t1 hwfe, scanChunks_cons st iendC t2 hwfe,
        if_pos hiend, if_pos hiend]
    rw [hscan]

/-- Witness for C10: dropping an unknown 4-byte chunk `zzzz`, and junk
after a bare IEND, leave the decode result unchanged. -/
theorem C10_unknown_chunks_and_iend_witness :
    parsePng inflateStored (fun bs => bs)
        (PNG_SIGNATURE ++ serializeChunks ([] ++ ⟨strBytes "zzzz", [9], [0, 0, 0, 0]⟩ :: [])) =
      parsePng inflateStored (fun bs => bs) (PNG_SIGNATURE ++ serializeChunks ([] ++ [])) ∧
    parsePng inflateStored (fun bs => bs)
        (PNG_SIGNATURE ++ (serializeChunks [] ++ (serializeChunk ⟨tagIEND, [], [0, 0, 0, 0]⟩ ++ [1]))) =
      parsePng inflateStored (fun bs => bs)
        (PNG_SIGNATURE ++ (serializeChunks [] ++ (serializeChunk ⟨tagIEND, [], [0, 0, 0, 0]⟩ ++ [2]))) :=
  ⟨(C10_unknown_chunks_and_iend inflateStored (fun bs => bs)).1 [] []
      ⟨strBytes "zzzz", [9], [0, 0, 0, 0]⟩ (by simp) (by decide)
      (by decide) (by decide) (by decide),
    (C10_unknown_chunks_and_iend inflateStored (fun bs => bs)).2 []
      ⟨tagIEND, [], [0, 0, 0, 0]⟩ [1] [2] (by simp) (by decide) (by decide)⟩


/-- `MM_TO_PT = 72 / 25.4` (part_005 line 5), as an exact rational. -/
def MM_TO_PT : ℚ := 72 / (254 / 10)

/-- `mmToPt` (part_005 lines 181–183). -/
def mmToPt (mm : ℚ) : ℚ := mm * MM_TO_PT

namespace LAYOUT

def pageWidthMm : ℚ := 100
def pageHeightMm : ℚ := 148
def cols : Nat := 4
def rowsPerPage : Nat := 4
def marginTopMm : ℚ := 20
def marginLeftMm : ℚ := 10
def cellWidthMm : ℚ := 17
def cellHeightMm : ℚ := 24
def gapMm : ℚ := 4

end LAYOUT

/-- One PDF content-stream operator pushed by `createPdf`'s page loop:
`q` (save), `Q` (restore), the `cm` matrix, or `/Name Do` (paint image). -/
inductive PdfOp where
  | save : PdfOp
  | restore : PdfOp
  | cm (a b c d e f : ℚ) : PdfOp
  | paintImage (name : String) : PdfOp
deriving DecidableEq, Repr

def PdfOp.isPaint : PdfOp → Bool
  | .paintImage _ => true
  | _ => false

/-- x-coordinate of column `col` (part_005 line 522). -/
def xCol (col : Nat) : ℚ :=
  mmToPt LAYOUT.marginLeftMm + col * (mmToPt LAYOUT.cellWidthMm + mmToPt LAYOUT.gapMm)

/-- y-coordinate of row `row` (part_005 line 520). -/
def yRow (row : Nat) : ℚ :=
  mmToPt LAYOUT.pageHeightMm - mmToPt LAYOUT.marginTopMm - mmToPt LAYOUT.cellHeightMm -
    row * (mmToPt LAYOUT.cellHeightMm + mmToPt LAYOUT.gapMm)

/-- The four operators pushed per copy (part_005 lines 523–528):
`q`, `cm`, `/Name Do`, `Q`. -/
def paintBlock (name : String) (x y : ℚ) : List PdfOp :=
  [.save, .cm (mmToPt LAYOUT.cellWidthMm) 0 0 (mmToPt LAYOUT.cellHeightMm) x y,
    .paintImage name, .restore]

/-- The operators pushed for one row of a page (part_005 lines 511–530):
look up `imageRefs[pageIndex*rowsPerPage + row]`; `continue` when absent,
else one `paintBlock` per column. -/
def rowCommands (names : List String) (pageIndex row : Nat) : List PdfOp :=
  match names[pageIndex * LAYOUT.rowsPerPage + row]? with
  | none => []
  | some name =>
    (List.range LAYOUT.cols).flatMap fun col => paintBlock name (xCol col) (yRow row)

/-- All image-painting operators of the page at `pageIndex` whose chunk
holds `rowsLen` tiles (the row loop of part_005 lines 511–530). -/
def pageCommands (names : List String) (pageIndex rowsLen : Nat) : List PdfOp :=
  (List.range rowsLen).flatMap fun row => rowCommands names pageIndex row

/-- The names `Im1, Im2, …` given to the page images (part_005 line 490). -/
def imageNames (n : Nat) : List String :=
  (List.range n).map fun i => "Im" ++ toString (i + 1)

/-- `tilePages = chunkBy(tiles, LAYOUT.rowsPerPage)` (part_005 line 505). -/
def tilePagesOf {α : Type} (tiles : List α) : List (List α) :=
  chunkBy tiles LAYOUT.rowsPerPage

theorem chunkBy_nil {α : Type} (s : Nat) : chunkBy ([] : List α) s = [] := by
  cases s with
  | zero => rw [chunkBy]
  | succ s => rw [chunkBy]

theorem chunkBy_cons {α : Type} (x : α) (xs : List α) (s : Nat) :
    chunkBy (x :: xs) (s + 1) =
      (x :: xs).take (s + 1) :: chunkBy ((x :: xs).drop (s + 1)) (s + 1) := by
  rw [chunkBy]

theorem chunkBy4_spec {α : Type} :
    ∀ (n : Nat) (l : List α), l.length ≤ n →
      (chunkBy l 4).flatten = l ∧
      (chunkBy l 4).length = (l.length + 3) / 4 ∧
      (∀ page ∈ chunkBy l 4, page.length ≤ 4) ∧
      (∀ p, (chunkBy l 4)[p]? =
        if 4 * p < l.length then some ((l.drop (4 * p)).take 4) else none) := by
  intro n
  induction n with
  | zero =>
    intro l hl
    have h0 : l = [] := List.eq_nil_of_length_eq_zero (Nat.le_zero.mp hl)
    subst h0
    refine ⟨by rw [chunkBy_nil]; rfl, by rw [chunkBy_nil]; simp, by simp [chunkBy_nil], ?_⟩
    intro p
    simp [chunkBy_nil]
  | succ n ih =>
    intro l hl
    cases l with
    | nil =>
      refine ⟨by rw [chunkBy_nil]; rfl, by rw [chunkBy_nil]; simp, by simp [chunkBy_nil], ?_⟩
      intro p
      simp [chunkBy_nil]
    | cons x xs =>
      have hstep := chunkBy_cons x xs 3
      have hdl : ((x :: xs).drop 4).length = (x :: xs).length - 4 := by
        simp
      have hrec := ih ((x :: xs).drop 4) (by
        simp only [List.length_drop, List.length_cons]
        simp only [List.length_cons] at hl
        omega)
      obtain ⟨hflat, hlen, hmem, hget⟩ := hrec
      refine ⟨?_, ?_, ?_, ?_⟩
      · rw [hstep]
        simp only [List.flatten_cons, hflat, List.take_append_drop]
      · rw [hstep]
        simp only [List.length_cons, hlen, hdl]
        have : (x :: xs).length = xs.length + 1 := rfl
        omega
      · rw [hstep]
        intro page hpage
        rcases List.mem_cons.mp hpage with h | h
        · subst h
          simpa using List.length_take_le 4 (x :: xs)
        · exact hmem page h
      · intro p
        rw [hstep]
        cases p with
        | zero =>
          have hpos : 4 * 0 < (x :: xs).length := by simp
          rw [if_pos hpos]
          simp
        | succ p =>
          have hget' := hget p
          simp only [List.getElem?_cons_succ, hget', hdl, List.drop_drop]
          have harith : 4 + 4 * p = 4 * (p + 1) := by ring
          rw [harith]
          by_cases hc : 4 * (p + 1) < (x :: xs).length
          · rw [if_pos (by omega), if_pos hc]
          · rw [if_neg (by omega), if_neg hc]

theorem countP_flatMap_range (g : Nat → List PdfOp) (f : PdfOp → Bool) (c : Nat)
    (hg : ∀ i, (g i).countP f = c) :
    ∀ k, (((List.range k).flatMap g).countP f) = k * c := by
  intro k
  induction k with
  | zero => simp
  | succ k ih =>
    rw [List.range_succ]
    simp only [List.flatMap_append, List.countP_append, ih, List.flatMap_cons,
      List.flatMap_nil, List.append_nil, hg k]
    ring

theorem rowCommands_present (n pageIndex row : Nat) (h : pageIndex * 4 + row < n) :
    rowCommands (imageNames n) pageIndex row =
      (List.range LAYOUT.cols).flatMap fun col =>
        paintBlock ("Im" ++ toString (pageIndex * 4 + row + 1)) (xCol col) (yRow row) := by
  unfold rowCommands imageNames
  have hidx : pageIndex * LAYOUT.rowsPerPage + row = pageIndex * 4 + row := rfl
  rw [hidx]
  rw [List.getElem?_map, List.getElem?_range h]
  rfl

theorem pageCommands_paints (n pageIndex k : Nat) (h : pageIndex * 4 + k ≤ n) :
    pageCommands (imageNames n) pageIndex k =
      (List.range k).flatMap (fun i =>
        (List.range LAYOUT.cols).flatMap fun col =>
          paintBlock ("Im" ++ toString (pageIndex * 4 + i + 1)) (xCol col) (yRow i)) ∧
    (pageCommands (imageNames n) pageIndex k).countP PdfOp.isPaint = 4 * k := by
  have heq : pageCommands (imageNames n) pageIndex k =
      (List.range k).flatMap (fun i =>
        (List.range LAYOUT.cols).flatMap fun col =>
          paintBlock ("Im" ++ toString (pageIndex * 4 + i + 1)) (xCol col) (yRow i)) := by
    unfold pageCommands
    apply List.flatMap_congr
    intro i hi
    have hi' : i < k := List.mem_range.mp hi
    exact rowCommands_present n pageIndex i (by omega)
  refine ⟨heq, ?_⟩
  rw [heq]
  have hone : ∀ i, ((List.range LAYOUT.cols).flatMap fun col =>
      paintBlock ("Im" ++ toString (pageIndex * 4 + i + 1)) (xCol col) (yRow i)).countP
        PdfOp.isPaint = 4 := by
    intro i
    have hr : List.range LAYOUT.cols = [0, 1, 2, 3] := rfl
    rw [hr]
    simp [paintBlock, PdfOp.isPaint, List.countP_cons]
  have := countP_flatMap_range (fun i =>
    (List.range LAYOUT.cols).flatMap fun col =>
      paintBlock ("Im" ++ toString (pageIndex * 4 + i + 1)) (xCol col) (yRow i))
    PdfOp.isPaint 4 hone k
  rw [this]
  ring

/-- C6: layout partitions the ordered tile list into ceil(n/4) pages of at
most rowsPerPage = 4 tiles each, in order (page p is the slice
[4p, 4p+4)); within a page, the tile at group index i occupies row i (its
paint blocks use the y-coordinate of row i) and its image is painted
exactly cols = 4 times, each copy bracketed as q / cm / Do / Q, so a page
holding k tiles carries exactly 4*k paint-image instructions; 5 tiles
yield 2 pages with 16 and 4 paint instructions. -/
theorem C6_pagination_layout (tiles : List ParsedTileFile) :
    (tilePagesOf tiles).flatten = tiles ∧
    (tilePagesOf tiles).length = (tiles.length + 3) / 4 ∧
    (∀ page ∈ tilePagesOf tiles, page.length ≤ LAYOUT.rowsPerPage) ∧
    (∀ p, (tilePagesOf tiles)[p]? =
      if 4 * p < tiles.length then some ((tiles.drop (4 * p)).take 4) else none) ∧
    (∀ pageIndex k, pageIndex * LAYOUT.rowsPerPage + k ≤ tiles.length →
      pageCommands (imageNames tiles.length) pageIndex k =
        (List.range k).flatMap (fun i =>
          (List.range LAYOUT.cols).flatMap fun col =>
            paintBlock ("Im" ++ toString (pageIndex * LAYOUT.rowsPerPage + i + 1))
              (xCol col) (yRow i)) ∧
      (pageCommands (imageNames tiles.length) pageIndex k).countP PdfOp.isPaint =
        LAYOUT.cols * k) ∧
    (tiles.length = 5 →
      (tilePagesOf tiles).map List.length = [4, 1] ∧
      (pageCommands (imageNames 5) 0 4).countP PdfOp.isPaint = 16 ∧
      (pageCommands (imageNames 5) 1 1).countP PdfOp.isPaint = 4) := by
  obtain ⟨hflat, hlen, hmem, hget⟩ := chunkBy4_spec tiles.length tiles (le_refl _)
  have hpages : tilePagesOf tiles = chunkBy tiles 4 := rfl
  refine ⟨by rw [hpages]; exact hflat, by rw [hpages]; exact hlen,
    by rw [hpages]; exact hmem, by rw [hpages]; exact hget, ?_, ?_⟩
  · intro pageIndex k hk
    exact pageCommands_paints tiles.length pageIndex k hk
  · intro h5
    refine ⟨?_, ?_, ?_⟩
    · rw [hpages]
      apply List.ext_getElem?
      intro p
      rw [List.getElem?_map]
      match p with
      | 0 =>
        rw [hget 0, if_pos (by omega)]
        simp [h5, List.length_take, min_def]
        try omega
      | 1 =>
        rw [hget 1, if_pos (by omega)]
        have : ((tiles.drop 4).take 4).length = 1 := by
          simp [h5, List.length_take, List.length_drop, min_def]
        simp [this]
      | (p + 2) =>
        rw [hget (p + 2), if_neg (by omega)]
        simp
    · exact (pageCommands_paints 5 0 4 (by omega)).2
    · exact (pageCommands_paints 5 1 1 (by omega)).2


def tilesFive : List ParsedTileFile :=
  [⟨"out/1m.png", "1m"⟩, ⟨"out/9m.png", "9m"⟩, ⟨"out/3p.png", "3p"⟩,
    ⟨"out/5z.png", "5z"⟩, ⟨"out/1z.png", "1z"⟩]

/-- Witness for C6 at the five-tile catalog: pages of sizes 4 and 1 with
16 and 4 paint instructions. -/
theorem C6_pagination_layout_witness :
    (tilePagesOf tilesFive).map List.length = [4, 1] ∧
    (pageCommands (imageNames 5) 0 4).countP PdfOp.isPaint = 16 ∧
    (pageCommands (imageNames 5) 1 1).countP PdfOp.isPaint = 4 :=
  (C6_pagination_layout tilesFive).2.2.2.2.2 rfl

/-- `PdfImageRef` (part_005 lines 54–57). -/
structure PdfImageRef where
  name : String
  objectId : Nat
deriving DecidableEq, Repr

/-- `PdfBuilder.addRawObject` (part_005 lines 71–73). -/
def addRawObject (objects : List PdfBody) (raw : String) : List PdfBody × Nat :=
  addObject objects (strBytes raw)

/-- `PdfBuilder.addPlaceholderObject` (part_005 lines 75–77). -/
def addPlaceholderObject (objects : List PdfBody) : List PdfBody × Nat :=
  addObject objects placeholderBody

/-- `PdfBuilder.addStreamObject` (part_005 lines 79–83). -/
def addStreamObject (objects : List PdfBody) (dict : String) (data : List Nat) :
    List PdfBody × Nat :=
  addObject objects (streamObjectBody dict data)

/-- The soft-mask image dictionary (part_005 line 478). -/
def smaskDict (p : ParsedPng) (alpha : List Nat) : String :=
  "<< /Type /XObject /Subtype /Image /Width " ++ toString p.width ++
    " /Height " ++ toString p.height ++
    " /ColorSpace /DeviceGray /BitsPerComponent 8 /Filter /FlateDecode /Length " ++
    toString alpha.length ++ " >>"

/-- The image dictionary (part_005 line 485), with the optional
`/SMask` fragment already rendered into `smaskPart`. -/
def imageDict (p : ParsedPng) (smaskPart : String) : String :=
  "<< /Type /XObject /Subtype /Image /Width " ++ toString p.width ++
    " /Height " ++ toString p.height ++
    " /ColorSpace /DeviceRGB /BitsPerComponent " ++ toString p.bitDepth ++
    " /Filter /FlateDecode /Length " ++ toString p.rgbDeflated.length ++
    smaskPart ++ " >>"

/-- The image-registration loop of `createPdf` (part_005 lines 471–493),
over already-decoded images: per tile, register the alpha plane as a
soft-mask stream when present, then the RGB stream, and record the
reference `Im{i+1}` to the image object. -/
def addImages : List PdfBody → Nat → List ParsedPng → List PdfBody × List PdfImageRef
  | objects, _, [] => (objects, [])
  | objects, i, p :: rest =>
    let step :=
      match p.alphaDeflated with
      | some alpha =>
        let r1 := addStreamObject objects (smaskDict p alpha) alpha
        addStreamObject r1.1
          (imageDict p (" /SMask " ++ toString r1.2 ++ " 0 R")) p.rgbDeflated
      | none => addStreamObject objects (imageDict p "") p.rgbDeflated
    let r2 := addImages step.1 (i + 1) rest
    (r2.1, ⟨"Im" ++ toString (i + 1), step.2⟩ :: r2.2)

/-- One content-stream line (part_005 lines 523–528); the numeric
formatting of the host's `toFixed(4)` is a parameter `numFmt`. The `cm`
operator's second and third entries are the literal zeros of the source
template string. -/
def opLine (numFmt : ℚ → String) : PdfOp → String
  | .save => "q"
  | .restore => "Q"
  | .cm a _ _ d e f =>
    numFmt a ++ " 0 0 " ++ numFmt d ++ " " ++ numFmt e ++ " " ++ numFmt f ++ " cm"
  | .paintImage name => "/" ++ name ++ " Do"

/-- The guide commands pushed when `showGuides` is set
(part_005 lines 532–568). -/
def guideCommands (numFmt : ℚ → String) : List String :=
  let pageWidthPt := mmToPt LAYOUT.pageWidthMm
  let pageHeightPt := mmToPt LAYOUT.pageHeightMm
  let gridWidthMm : ℚ :=
    (LAYOUT.cols : ℚ) * LAYOUT.cellWidthMm + ((LAYOUT.cols : ℚ) - 1) * LAYOUT.gapMm
  let gridHeightMm : ℚ :=
    (LAYOUT.rowsPerPage : ℚ) * LAYOUT.cellHeightMm +
      ((LAYOUT.rowsPerPage : ℚ) - 1) * LAYOUT.gapMm
  let leftMm := LAYOUT.marginLeftMm
  let rightMm := leftMm + gridWidthMm
  let topMm := LAYOUT.marginTopMm
  let bottomMm := topMm + gridHeightMm
  let centerXPt := mmToPt (LAYOUT.pageWidthMm / 2)
  let centerYPt := mmToPt (LAYOUT.pageHeightMm / 2)
  let leftPt := mmToPt leftMm
  let rightPt := mmToPt rightMm
  let topPt := mmToPt topMm
  let bottomPt := mmToPt bottomMm
  let topYPtFromBottom := pageHeightPt - topPt
  let bottomYPtFromBottom := pageHeightPt - bottomPt
  ["q", "0.2 0.4 0.9 RG", "0.5 w",
    numFmt centerXPt ++ " 0 m " ++ numFmt centerXPt ++ " " ++ numFmt pageHeightPt ++ " l S",
    "0 " ++ numFmt centerYPt ++ " m " ++ numFmt pageWidthPt ++ " " ++ numFmt centerYPt ++ " l S",
    "Q",
    "q", "0.9 0.2 0.2 RG", "0.8 w",
    numFmt leftPt ++ " " ++ numFmt bottomYPtFromBottom ++ " m " ++
      numFmt rightPt ++ " " ++ numFmt bottomYPtFromBottom ++ " l " ++
      numFmt rightPt ++ " " ++ numFmt topYPtFromBottom ++ " l " ++
      numFmt leftPt ++ " " ++ numFmt topYPtFromBottom ++ " l h S",
    "Q"]

/-- The `/XObject` resource entries collected by the row loop
(part_005 line 518). -/
def xObjectEntriesOf (imageRefs : List PdfImageRef) (pageIndex rowsLen : Nat) :
    List String :=
  (List.range rowsLen).filterMap fun row =>
    (imageRefs[pageIndex * LAYOUT.rowsPerPage + row]?).map fun ref =>
      "/" ++ ref.name ++ " " ++ toString ref.objectId ++ " 0 R"

/-- The page dictionary (part_005 lines 574–576). -/
def pageDict (numFmt : ℚ → String) (pagesId : Nat) (entries : List String)
    (contentId : Nat) : String :=
  "<< /Type /Page /Parent " ++ toString pagesId ++ " 0 R /MediaBox [0 0 " ++
    numFmt (mmToPt LAYOUT.pageWidthMm) ++ " " ++ numFmt (mmToPt LAYOUT.pageHeightMm) ++
    "] /Resources << /XObject << " ++ String.intercalate " " entries ++
    " >> >> /Contents " ++ toString contentId ++ " 0 R >>"

/-- The page loop of `createPdf` (part_005 lines 507–578): per page chunk,
register the content stream (the commands joined with newlines plus a
trailing newline, byte-encoded) and the page object, collecting page ids. -/
def addPages (numFmt : ℚ → String) (imageRefs : List PdfImageRef) (pagesId : Nat)
    (showGuides : Bool) :
    List PdfBody → Nat → List (List ParsedTileFile) → List PdfBody × List Nat
  | objects, _, [] => (objects, [])
  | objects, pageIndex, rows :: rest =>
    let ops := pageCommands (imageRefs.map PdfImageRef.name) pageIndex rows.length
    let entries := xObjectEntriesOf imageRefs pageIndex rows.length
    let lines := ops.map (opLine numFmt) ++
      (if showGuides then guideCommands numFmt else [])
    let contentData := (strBytes (String.intercalate "
" lines ++ "
")).map (· % 256)
    let r1 := addStreamObject objects
      ("<< /Length " ++ toString contentData.length ++ " >>") contentData
    let r2 := addRawObject r1.1 (pageDict numFmt pagesId entries r1.2)
    let r3 := addPages numFmt imageRefs pagesId showGuides r2.1 (pageIndex + 1) rest
    (r3.1, r2.2 :: r3.2)

/-- `createPdf` (part_005 lines 467–588) over already-decoded images:
register the image streams, reserve the page-tree placeholder, build each
page, overwrite the placeholder with the `/Pages` dictionary, register the
catalog, and serialize. A total function: the layout phase has no failure
path. -/
def createPdf (numFmt : ℚ → String) (tiles : List ParsedTileFile)
    (images : List ParsedPng) (showGuides : Bool) : List Nat :=
  let r1 := addImages [] 0 images
  let r2 := addPlaceholderObject r1.1
  let r3 := addPages numFmt r1.2 r2.2 showGuides r2.1 0 (tilePagesOf tiles)
  let kids := String.intercalate " " (r3.2.map fun id => toString id ++ " 0 R")
  let objs := setObject r3.1 r2.2
    (strBytes ("<< /Type /Pages /Kids [" ++ kids ++ "] /Count " ++
      toString r3.2.length ++ " >>"))
  let r4 := addRawObject objs ("<< /Type /Catalog /Pages " ++ toString r2.2 ++ " 0 R >>")
  build r4.1 r4.2

/-- The error surface of `main`: the exhausted-input throw
(part_005 lines 602–604) or a decode failure propagated out of
`createPdf`'s per-tile `parsePng` calls. -/
inductive RunErr where
  | emptyInput : RunErr
  | pngError (e : PngErr) : RunErr
deriving DecidableEq, Repr

/-- The sequential per-tile decode of `createPdf`'s loop (part_005 lines
471–473): stop at the first failure. -/
def decodeTiles (decodeFile : String → Except PngErr ParsedPng) :
    List ParsedTileFile → Except PngErr (List ParsedPng)
  | [] => .ok []
  | t :: rest =>
    match decodeFile t.filePath with
    | .error e => .error e
    | .ok p =>
      match decodeTiles decodeFile rest with
      | .error e => .error e
      | .ok ps => .ok (p :: ps)

/-- `main` (part_005 lines 590–619), minus filesystem and stdout effects:
scan the input directory listing, fail with EmptyInput when no name
matched, else decode every tile file and build the document bytes. -/
def runMain (numFmt : ℚ → String) (decodeFile : String → Except PngErr ParsedPng)
    (inputDir : String) (names : List String) (showGuides : Bool) :
    Except RunErr (List Nat) :=
  let tiles := findPngFiles inputDir names
  if tiles.length = 0 then .error .emptyInput
  else
    match decodeTiles decodeFile tiles with
    | .error e => .error (.pngError e)
    | .ok images => .ok (createPdf numFmt tiles images showGuides)

theorem decodeTiles_ok (decodeFile : String → Except PngErr ParsedPng) :
    ∀ ts : List ParsedTileFile,
      (∀ t ∈ ts, ∃ img, decodeFile t.filePath = .ok img) →
      ∃ imgs, decodeTiles decodeFile ts = .ok imgs := by
  intro ts
  induction ts with
  | nil => exact fun _ => ⟨[], rfl⟩
  | cons t rest ih =>
    intro h
    obtain ⟨img, himg⟩ := h t (List.mem_cons_self _ _)
    obtain ⟨imgs, hrest⟩ := ih fun u hu => h u (List.mem_cons_of_mem _ hu)
    refine ⟨img :: imgs, ?_⟩
    unfold decodeTiles
    rw [himg, hrest]

/-- C9: when the directory scan matches no file, the run fails with
EmptyInput whatever the decoder would do — no file is decoded, no object
is registered, no bytes are produced; when the scan is non-empty and
every matched file decodes, the run succeeds: the layout phase itself
(`createPdf`, a total function) never fails. -/
theorem C9_empty_input_before_layout (numFmt : ℚ → String) (inputDir : String)
    (names : List String) (showGuides : Bool) :
    (findPngFiles inputDir names = [] →
      ∀ decodeFile, runMain numFmt decodeFile inputDir names showGuides =
        .error .emptyInput) ∧
    (∀ decodeFile, findPngFiles inputDir names ≠ [] →
      (∀ t ∈ findPngFiles inputDir names, ∃ img, decodeFile t.filePath = .ok img) →
      runMain numFmt decodeFile inputDir names showGuides =
        .ok (createPdf numFmt (findPngFiles inputDir names)
          ((decodeTiles decodeFile (findPngFiles inputDir names)).toOption.getD [])
          showGuides)) := by
  constructor
  · intro h decodeFile
    unfold runMain
    rw [h]
    rfl
  · intro decodeFile hne hall
    obtain ⟨imgs, himgs⟩ := decodeTiles_ok decodeFile _ hall
    unfold runMain
    rw [if_neg (by simpa using hne), himgs]
    rfl

/-- Witness for C9: an empty listing gives EmptyInput; a one-file listing
with a succeeding decoder gives document bytes. -/
theorem C9_empty_input_before_layout_witness :
    runMain (fun _ => "") (fun _ => .ok ⟨1, 1, 8, [42], none⟩) "out" [] false =
      .error .emptyInput ∧
    runMain (fun _ => "") (fun _ => .ok ⟨1, 1, 8, [42], none⟩) "out" ["1m.png"] false =
      .ok (createPdf (fun _ => "") (findPngFiles "out" ["1m.png"])
        ((decodeTiles (fun _ => .ok ⟨1, 1, 8, [42], none⟩)
          (findPngFiles "out" ["1m.png"])).toOption.getD []) false) :=
  ⟨(C9_empty_input_before_layout (fun _ => "") "out" [] false).1 (by decide)
      (fun _ => .ok ⟨1, 1, 8, [42], none⟩),
    (C9_empty_input_before_layout (fun _ => "") "out" ["1m.png"] false).2
      (fun _ => .ok ⟨1, 1, 8, [42], none⟩) (by decide)
      (fun t _ => ⟨⟨1, 1, 8, [42], none⟩, rfl⟩)⟩

end MahjongPdf
